import Mathlib

/-!
Verification of the wgpu-py code-generation script (`codegen-script.py`).

The script is one-shot batch text processing: it cross-checks two parsed
catalogs (from `webgpu.idl` and `wgpu.h`), builds an enum translation table,
emits generated source files, and patches hand-written binding files by
injecting marker comments and rewritten signatures.

The development below embeds the script's pure text-processing logic.
Python strings are embedded as `String` (operating on `String.data`, i.e.
`List Char`; inputs are ASCII), Python dicts as insertion-ordered association
lists (`List (String × α)`, duplicate-free keys where relevant), fallible
Python operations (assertions, `dict[...]` lookups that can raise `KeyError`)
as `Except String`.  Each helper mirrors the corresponding Python string
method for the ASCII inputs the script processes.
-/

deriving instance DecidableEq for Except

namespace Codegen

/-- Python `str.lower` (ASCII). -/
def pyLower (s : String) : String := ⟨s.data.map Char.toLower⟩

/-- Python `s.startswith(p)`. -/
def strStarts (s p : String) : Bool := p.data.isPrefixOf s.data

/-- Python `s.endswith(p)`. -/
def strEnds (s p : String) : Bool := p.data.isSuffixOf s.data

/-- Core of Python `str.replace` on character lists: scan left to right,
replacing non-overlapping occurrences of `pat` (the `Nat` argument counts
pattern characters still to be skipped after a match was consumed). -/
def replSkip (pat rep : List Char) : Nat → List Char → List Char
  | _, [] => []
  | Nat.succ k, _ :: cs => replSkip pat rep k cs
  | 0, c :: cs =>
    if pat.isPrefixOf (c :: cs) ∧ pat ≠ [] then
      rep ++ replSkip pat rep (pat.length - 1) cs
    else
      c :: replSkip pat rep 0 cs

/-- Python `s.replace(pat, rep)` for a non-empty pattern. -/
def pyReplace (s pat rep : String) : String := ⟨replSkip pat.data rep.data 0 s.data⟩

/-- Does `pat` occur in `s` (Python `pat in s`), on character lists. -/
def containsSubL (pat : List Char) : List Char → Bool
  | [] => pat.isPrefixOf []
  | c :: cs => pat.isPrefixOf (c :: cs) || containsSubL pat cs

/-- Python `pat in s` for strings. -/
def pyContains (s pat : String) : Bool := containsSubL pat.data s.data

/-- Core of Python `str.title` (ASCII): an alphabetic character is upper-cased
when the previous character was not alphabetic, lower-cased otherwise; the
Boolean records whether the previous character was alphabetic (cased). -/
def titleL : Bool → List Char → List Char
  | _, [] => []
  | prevCased, c :: cs =>
    if c.isAlpha then
      (if prevCased then c.toLower else c.toUpper) :: titleL true cs
    else
      c :: titleL false cs

/-- Python `str.title` (ASCII). -/
def pyTitle (s : String) : String := ⟨titleL false s.data⟩

/-- Split a character list at every character satisfying `p`, keeping empty
pieces (like Python `str.split(sep)` with an explicit separator). -/
def splitPredL (p : Char → Bool) : List Char → List (List Char)
  | [] => [[]]
  | c :: cs =>
    if p c then [] :: splitPredL p cs
    else
      match splitPredL p cs with
      | [] => [[c]]
      | h :: t => (c :: h) :: t

/-- Python `s.split(sep)` for a one-character separator. -/
def pySplitChar (s : String) (sep : Char) : List String :=
  (splitPredL (fun c => c = sep) s.data).map (fun l => ⟨l⟩)

/-- Python `s.split(sep, 1)`: the part before the first occurrence of the
one-character separator, and (when the separator occurs) the rest. -/
def breakFirstL (sep : Char) : List Char → List Char × Option (List Char)
  | [] => ([], none)
  | c :: cs =>
    if c = sep then ([], some cs)
    else
      let r := breakFirstL sep cs
      (c :: r.1, r.2)

/-- Python `s.split(sep, 1)[0]` for a one-character separator. -/
def pyBreakFirstHead (s : String) (sep : Char) : String := ⟨(breakFirstL sep s.data).1⟩

/-- Python `s.split(sep, 1)[1]` for a one-character separator, `none` when the
separator does not occur (where Python raises `IndexError`). -/
def pyBreakFirstTail (s : String) (sep : Char) : Option String :=
  (breakFirstL sep s.data).2.map (fun l => ⟨l⟩)

/-- Python `s.lstrip()`. -/
def pyLstrip (s : String) : String := ⟨s.data.dropWhile Char.isWhitespace⟩

/-- Python `s.rstrip()`. -/
def pyRstrip (s : String) : String := ⟨(s.data.reverse.dropWhile Char.isWhitespace).reverse⟩

/-- Python `s.strip()`. -/
def pyStrip (s : String) : String := pyRstrip (pyLstrip s)

/-- Python `s.split()` (split on whitespace, dropping empty pieces). -/
def pySplitWS (s : String) : List String :=
  ((splitPredL Char.isWhitespace s.data).filter (fun l => l ≠ [])).map (fun l => ⟨l⟩)

/-- Python `s.splitlines()` for `\n`-separated text (the script's inputs use
Unix newlines): every `\n` separates lines, and text ending in `\n` yields no
final empty line. -/
def pySplitlines (s : String) : List String :=
  if s.data = [] then []
  else
    let ps := splitPredL (fun c => c = '\n') s.data
    (if ps.getLast? = some [] then ps.dropLast else ps).map (fun l => ⟨l⟩)

/-- Python `"\n".join(lines)`. -/
def joinLines : List String → String
  | [] => ""
  | [x] => x
  | x :: y :: t => x ++ "\n" ++ joinLines (y :: t)

/-- Python `", ".join(parts)`. -/
def joinCommaSp : List String → String
  | [] => ""
  | [x] => x
  | x :: y :: t => x ++ ", " ++ joinCommaSp (y :: t)

/-- Python `xs[-1]` with a default for the empty list (the script only indexes
lists it has just shown to be non-empty). -/
def pyLastD (xs : List String) (d : String) : String := xs.getLastD d

/-- Python `xs[-2]`: `none` when the list has fewer than two elements (where
Python raises `IndexError`). -/
def pySecondLast (xs : List String) : Option String := (xs.reverse.drop 1).head?

/-- Lexicographic (code-point) comparison of character lists: Python string
comparison, as `sorted` uses it. -/
def leL : List Char → List Char → Bool
  | [], _ => true
  | _ :: _, [] => false
  | a :: as, b :: bs => if a = b then leL as bs else decide (a < b)

/-- Python string comparison `a <= b` (code-point lexicographic). -/
def strLeB (a b : String) : Bool := leL a.data b.data

/-- Python dict update `d[k] = v` on an insertion-ordered association list: an
existing key keeps its position and gets the new value, a new key is appended. -/
def dictInsert (d : List (String × α)) (k : String) (v : α) : List (String × α) :=
  if (List.lookup k d).isSome then
    d.map (fun p => if p.1 = k then (k, v) else p)
  else
    d ++ [(k, v)]

/-- Keys of an association-list dict, in insertion order. -/
def keysOf (d : List (String × α)) : List String := d.map Prod.fst

/-!
Catalogs.  `hp` is the native catalog parsed from `wgpu.h`, `ip` the
interface catalog parsed from `webgpu.idl`.  A native enumeration maps member
names to integer codes; an interface enumeration maps Python-identifier keys
to string member values (the script iterates `ip.enums[name].values()`).
-/

/-- Native enum catalog: name, then member name to integer code. -/
abbrev HpEnums := List (String × List (String × Int))

/-- Interface enum catalog: name, then Python key to string member value. -/
abbrev IpEnums := List (String × List (String × String))

/-- Modelled from the spec: the header parser (`HParser`, not part of this
repository's files) catalogs each native declaration under the shared API
name, i.e. with the native `WGPU` prefix stripped, so that same-named entries
of the two catalogs line up (the script compares `hp.enums` keys directly
with `ip.enums` keys, and recovers interface names from native type names by
dropping their first four characters). -/
def hParserName (s : String) : String :=
  if strStarts s "WGPU" then ⟨s.data.drop 4⟩ else s

/-- Lexical transform from an interface enum member value to the native
member-name convention (`codegen-script.py` lines 122-124): replace the
dimensionality markers `1d`, `2d`, `3d` by `D1`, `D2`, `D3`, then convert
hyphen-separated words to concatenated capitalized words. -/
def toNativeKey (ikey : String) : String :=
  let h1 := pyReplace (pyReplace (pyReplace ikey "1d" "D1") "2d" "D2") "3d" "D3"
  pyReplace (pyTitle (pyReplace h1 "-" " ")) " " ""

/-- Translation-table entries contributed by one enumeration present in both
catalogs: one entry `"<name>.<ikey>" -> code` per interface member value whose
transformed name is a key of the native enumeration (lines 121-126). -/
def enumEntriesOf (name : String) (hm : List (String × Int)) (ivals : List String) :
    List (String × Int) :=
  ivals.filterMap (fun ikey =>
    (List.lookup (toNativeKey ikey) hm).map (fun v => (name ++ "." ++ ikey, v)))

/-- Diagnostic lines contributed by one enumeration present in both catalogs:
one `"<name>.<ikey> is missing"` line per interface member value whose
transformed name is not a key of the native enumeration (line 128). -/
def enumMissingOf (name : String) (hm : List (String × Int)) (ivals : List String) :
    List String :=
  ivals.filterMap (fun ikey =>
    if (List.lookup (toNativeKey ikey) hm).isSome then none
    else some (name ++ "." ++ ikey ++ " is missing"))

/-- The enum translation table `enummap` (lines 118-126): iterate the native
enum catalog in order, skip names absent from the interface catalog, and
collect each shared enumeration's entries.  (The script stores the entries in
a dict; two assignments can only coincide in both key and value, so the
insertion-ordered association list of assignments represents it faithfully.) -/
def buildEnummap (hp : HpEnums) (ip : IpEnums) : List (String × Int) :=
  match hp with
  | [] => []
  | (name, hm) :: t =>
    (match List.lookup name ip with
     | none => []
     | some im => enumEntriesOf name hm (im.map Prod.snd)) ++ buildEnummap t ip

/-- The `"... is missing"` diagnostics of the enum-comparison loop, in
emission order (lines 118-128). -/
def enummapMissingLines (hp : HpEnums) (ip : IpEnums) : List String :=
  match hp with
  | [] => []
  | (name, hm) :: t =>
    (match List.lookup name ip with
     | none => []
     | some im => enumMissingOf name hm (im.map Prod.snd)) ++ enummapMissingLines t ip

/-!
Struct comparison (lines 130-149).  Only field names matter here: `keys1` are
the native struct's field names, `keys2` the interface struct's.
-/

/-- Normalization of a native struct field name (line 142): lower-case, remove
the substring `_length`, then remove underscores. -/
def normCKey (k : String) : String := pyReplace (pyReplace (pyLower k) "_length" "") "_" ""

/-- Python `repr` of a list of (apostrophe-free ASCII) strings, as `print`
renders `str(keys)` in the struct report (lines 148-149). -/
def pyReprStrList (ks : List String) : String :=
  "[" ++ joinCommaSp (ks.map (fun k => "'" ++ k ++ "'")) ++ "]"

/-- Does the struct-comparison loop flag this shared struct (lines 140-146)?
Native field names are normalized with `normCKey` and the placeholder name
`todo` is discarded; interface field names are lower-cased and `label` is
discarded; the two resulting sets are compared. -/
def structSetsDiffer (keys1 keys2 : List String) : Bool :=
  decide (((keys1.map normCKey).toFinset.erase "todo") ≠ ((keys2.map pyLower).toFinset.erase "label"))

/-- Report lines one native struct contributes (lines 138-149): nothing when
its name is absent from the interface catalog, otherwise three lines (the
name, then both field-name lists) exactly when the normalized sets differ. -/
def structBlock (is : List (String × List String)) (name : String)
    (keys1 : List String) : List String :=
  match List.lookup name is with
  | none => []
  | some keys2 =>
    if structSetsDiffer keys1 keys2 then
      [" " ++ name, "c: " ++ pyReprStrList keys1, "i: " ++ pyReprStrList keys2]
    else []

/-- Report lines of the struct member-mismatch loop (lines 137-149), iterating
the native catalog in order. -/
def structCompareLines (hs is : List (String × List String)) : List String :=
  match hs with
  | [] => []
  | (name, keys1) :: t => structBlock is name keys1 ++ structCompareLines t is

/-!
The formatting step `blacken` (lines 25-50).  The external `black` subprocess
is an oracle; `blackenPost` is the script's own post-processing of the
subprocess's output stream `result` and error stream `log`: raise
`RuntimeError(log)` exactly when the lower-cased error stream contains the
substring `error`, otherwise return the (in single-line mode, post-processed)
reformatted text.
-/

/-- Outcome of one `blacken` call, given the formatter subprocess's output and
error streams (lines 42-50). -/
def blackenPost (singleline : Bool) (result log : String) : Except String String :=
  if pyContains (pyLower log) "error" then Except.error log
  else
    Except.ok
      (if singleline then
        pyReplace (pyReplace result "(\n        self" "(self") ",\n    ):\n" "):\n"
      else result)

/-!
Function-identifier matching (lines 285-290).
-/

/-- First candidate present in `d`, in order (the early-return loop of
`get_func_id_match`). -/
def firstIn (d : List String) : List String → Option String
  | [] => none
  | c :: cs => if c ∈ d then some c else firstIn d cs

/-- The sync/async fallback candidates tried by `get_func_id_match`, in order
(line 288). -/
def funcIdCandidates (func_id : String) : List String :=
  [func_id, pyReplace func_id "async" "", func_id ++ "async"]

/-- The script's `get_func_id_match` (lines 285-290), with the table
represented by its key list: try the identifier itself, then with the `async`
substring removed, then with `async` appended; `none` when no candidate is a
key. -/
def get_func_id_match (func_id : String) (d : List String) : Option String :=
  firstIn d (funcIdCandidates func_id)

/-!
The source patcher (lines 293-375).  Per hand-written file: reformat to
single-line signatures (an external formatting oracle), drop stale marker
lines, scan for exposed functions, inject marker comments and rewritten
signatures in reverse discovery order, report unmatched identifiers in both
directions, reformat and write back.
-/

/-- Does the line start (after leading whitespace) with one of the two
auto-generated marker prefixes (lines 297, 301-303)? -/
def isMarkerLine (l : String) : Bool :=
  strStarts (pyLstrip l) "# IDL: " || strStarts (pyLstrip l) "# wgpu.help("

/-- The line list the patcher scans (lines 298-304): split the reformatted
text into lines, drop marker lines, right-strip the rest, and append one empty
line. -/
def prepLines (txt : String) : List String :=
  ((pySplitlines txt).filter (fun l => !isMarkerLine l)).map pyRstrip ++ [""]

/-- One scanned hand-written function: its qualified name, line index and
indentation (line 322). -/
structure FnEntry where
  funcname : String
  idx : Nat
  indent : Nat
deriving DecidableEq

/-- Python `api_lines[i - 1]`: for `i = 0` Python's negative indexing yields
the last line (the scan only runs over a non-empty list, so the default is
never reached). -/
def prevLine (all : List String) (i : Nat) : String :=
  if i = 0 then pyLastD all "" else (all.get? (i - 1)).getD ""

/-- Is this line an exposed function declaration header (line 312)? -/
def isDefLine (line : String) : Bool :=
  strStarts (pyLstrip line) "def " || strStarts (pyLstrip line) "async def"

/-- Class name extracted from a `class ` line (line 311):
`line.split(":")[0].split("(")[0].split()[-1]`. -/
def classNameOf (line : String) : String :=
  pyLastD (pySplitWS (pyBreakFirstHead (pyBreakFirstHead line ':') '(')) ""

/-- Function name extracted from a `def ` line (line 314):
`line.split("(")[0].split()[-1]`. -/
def defNameOf (line : String) : String :=
  pyLastD (pySplitWS (pyBreakFirstHead line '(')) ""

/-- Indentation of a line (line 313): `len(line) - len(line.lstrip())`. -/
def indentOf (line : String) : Nat := line.data.length - (pyLstrip line).data.length

/-- Normalized identifier of a qualified function name (lines 319-321):
strip dots, lower-case, and drop the first three characters when the
qualified name starts with `GPU`. -/
def funcIdOf (funcname : String) : String :=
  let func_id := pyLower (pyReplace funcname "." "")
  if strStarts funcname "GPU" then ⟨func_id.data.drop 3⟩ else func_id

/-- The scan loop over `api_lines` (lines 307-322), carried out over the
remaining lines with `i` the index of the first of them in `all`: track the
enclosing class, and record every exposed (non-underscore, non-property)
function under its normalized identifier with Python dict update semantics.
The one failure Python can hit here is qualifying an indented function before
any `class ` line (`None + "."`, a `TypeError`). -/
def scanAux (all : List String) :
    Nat → List String → Option String → List (String × FnEntry) →
    Except String (List (String × FnEntry))
  | _, [], _, acc => Except.ok acc
  | i, line :: rest, cc, acc =>
    let cc' := if strStarts line "class " then some (classNameOf line) else cc
    if isDefLine line then
      let ind := indentOf line
      let fn0 := defNameOf line
      if strStarts fn0 "_" then scanAux all (i + 1) rest cc' acc
      else if strStarts (pyLstrip (prevLine all i)) "@property" then
        scanAux all (i + 1) rest cc' acc
      else
        match (if ind ≠ 0 then cc'.map (fun c => c ++ "." ++ fn0) else some fn0) with
        | none => Except.error "TypeError: method found before any class line"
        | some funcname =>
          scanAux all (i + 1) rest cc'
            (dictInsert acc (funcIdOf funcname) ⟨funcname, i, ind⟩)
    else scanAux all (i + 1) rest cc' acc

/-- Detect the api functions of a prepared line list (lines 307-322). -/
def scanFns (all : List String) : Except String (List (String × FnEntry)) :=
  scanAux all 0 all none []

/-- Name before the first `=`, last whitespace token (line 335):
`arg.split("=")[0].split()[-1]`; `none` where Python raises `IndexError`. -/
def pyArgName (arg : String) : Option String :=
  (pySplitWS (pyBreakFirstHead arg '=')).getLast?

/-- Type before the first `=`, second-to-last whitespace token (line 336):
`arg.split("=")[0].split()[-2]`; `none` where Python raises `IndexError`. -/
def pyArgType (arg : String) : Option String :=
  pySecondLast (pySplitWS (pyBreakFirstHead arg '='))

/-- Parse the matched interface declaration's parameter list (lines 334-336):
the text between the first `(` and the first `)`, split on commas; blank
pieces are dropped, and each kept piece yields an argument name and type. -/
def parseIdlArgs (line : String) : Except String (List String × List String) :=
  match pyBreakFirstTail line '(' with
  | none => Except.error ("IndexError: no parameter list in " ++ line)
  | some rest =>
    let args := pySplitChar (pyBreakFirstHead rest ')') ','
    let kept := args.filter (fun a => pyStrip a ≠ "")
    match kept.mapM pyArgName, kept.mapM pyArgType with
    | some argnames, some argtypes => Except.ok (argnames, argtypes)
    | _, _ => Except.error ("IndexError: malformed parameter in " ++ line)

/-- Interface catalog as the patcher uses it: the function table (normalized
identifier to declaration line) and the struct table.  A struct is its ordered
fields' default-argument renderings: each entry is the string
`field.py_arg()` produces.  (`py_arg` lives in the `IdlParser`, which is not
part of this repository's files; modelled from the spec: every structure field
carries a derived default-argument rendering, a bare `label` string field
rendering as `label: str`.) -/
structure IpCatalog where
  functions : List (String × String)
  structs : List (String × List String)

/-- Indentation string `" " * n`. -/
def spaces (n : Nat) : String := ⟨List.replicate n ' '⟩

/-- The injected cross-reference comment (lines 357-359). -/
def helpCommentLine (indent : Nat) (searches : List String) : String :=
  spaces indent ++ "# wgpu.help(" ++
    joinCommaSp (searches.map (fun x => "'" ++ x ++ "'")) ++ ", dev=True)"

/-- Per-identifier computation of the injection loop (lines 326-352), as a
function of the catalog and the identifier only: `none` when the identifier
matches nothing; otherwise the rewritten signature's parameter list
(`py_args`), the `searches` names for the cross-reference comment, and the
matched declaration line.  Fatal outcomes: a malformed declaration
(`IndexError`), the `assert` on the `GPU` prefix (`AssertionError`), a
struct-table miss (`KeyError`), and an empty struct (`IndexError` on
`py_args[0]`). -/
def entrySigArgs (ip : IpCatalog) (func_id : String) :
    Except String (Option (List String × List String × String)) :=
  match get_func_id_match func_id (keysOf ip.functions) with
  | none => Except.ok none
  | some fid =>
    match List.lookup fid ip.functions with
    | none => Except.error "unreachable: matched identifier not in the table"
    | some line =>
      match parseIdlArgs line with
      | Except.error e => Except.error e
      | Except.ok (argnames, argtypes) =>
        let searches := fid ::
          (argtypes.filter (fun a => strStarts a "GPU")).map (fun a => (⟨a.data.drop 3⟩ : String))
        let pyArgsE : Except String (List String) :=
          match argtypes with
          | [t0] =>
            if strEnds t0 "Options" || strEnds t0 "Descriptor" then
              if !strStarts t0 "GPU" then Except.error "AssertionError: argtypes[0].startswith(GPU)"
              else
                match List.lookup (⟨t0.data.drop 3⟩ : String) ip.structs with
                | none => Except.error ("KeyError: " ++ (⟨t0.data.drop 3⟩ : String))
                | some fieldArgs =>
                  match fieldArgs with
                  | [] => Except.error "IndexError: py_args[0] of an empty struct"
                  | a0 :: rest =>
                    let py_args := (if a0 = "label: str" then "label=\"\"" else a0) :: rest
                    Except.ok
                      (if pyContains func_id "requestadapter" then "*" :: py_args
                       else "self" :: "*" :: py_args)
            else Except.ok ("self" :: argnames)
          | _ => Except.ok ("self" :: argnames)
        match pyArgsE with
        | Except.error e => Except.error e
        | Except.ok py_args => Except.ok (some (py_args, searches, line))

/-- The rewritten signature line for an identifier (lines 326-353): the part of
the current line before its first `(`, then the computed parameter list
(`pyline.split("(")[0] + "(" + ", ".join(py_args) + "):"`). -/
def entryPatch (ip : IpCatalog) (func_id : String) (pyline : String) :
    Except String (Option (String × List String × String)) :=
  match entrySigArgs ip func_id with
  | Except.error e => Except.error e
  | Except.ok none => Except.ok none
  | Except.ok (some (py_args, searches, line)) =>
    Except.ok
      (some (pyBreakFirstHead pyline '(' ++ "(" ++ joinCommaSp py_args ++ "):",
        searches, line))

/-- One iteration of the injection loop (lines 326-359), acting on the current
line list and match counter.  An identifier with no match leaves both
untouched; a fatal outcome of `entryPatch` aborts; otherwise the signature
line is rewritten in place and the marker comment lines are inserted above it
(the `# IDL: ` echo only for `base.py`), help comment first. -/
def injectOne (ip : IpCatalog) (isBase : Bool) (st : List String × Nat)
    (item : String × FnEntry) : Except String (List String × Nat) :=
  match entryPatch ip item.1 ((st.1.get? item.2.idx).getD "") with
  | Except.error e => Except.error e
  | Except.ok none => Except.ok st
  | Except.ok (some (sig, searches, line)) =>
    let ls1 := st.1.set item.2.idx sig
    let ls2 := if isBase then
        List.insertIdx item.2.idx (spaces item.2.indent ++ "# IDL: " ++ line) ls1
      else ls1
    Except.ok (List.insertIdx item.2.idx (helpCommentLine item.2.indent searches) ls2, st.2 + 1)

/-- The whole injection loop (lines 325-359): fold `injectOne` over the
scanned functions in reverse discovery order, starting from the prepared
lines and a zero counter. -/
def injectAll (ip : IpCatalog) (isBase : Bool) (ls : List String)
    (fns : List (String × FnEntry)) : Except String (List String × Nat) :=
  fns.reverse.foldlM (injectOne ip isBase) (ls, 0)

/-!
Normal forms used to reason about the injection loop.  The scanned entries
carry pairwise distinct line indices (strictly increasing in discovery order
when no two hand-written functions normalize to the same identifier), so the
loop — which processes them by decreasing index — is equivalent to a single
left-to-right pass replacing each line by a block.
-/

/-- The scanned entry owning line index `p`, if any. -/
def entryAt (fns : List (String × FnEntry)) (p : Nat) : Option (String × FnEntry) :=
  fns.find? (fun q => q.2.idx = p)

/-- The block of output lines the injection loop leaves at line index `p`:
the line itself when no entry owns `p` or its identifier matches nothing;
for a matched entry, the help comment, the `# IDL: ` echo (for `base.py`) and
the rewritten signature. -/
def expandAt (ip : IpCatalog) (isBase : Bool) (fns : List (String × FnEntry))
    (p : Nat) (l : String) : List String :=
  match entryAt fns p with
  | none => [l]
  | some (fid, e) =>
    match entryPatch ip fid l with
    | Except.error _ => [l]
    | Except.ok none => [l]
    | Except.ok (some (sig, searches, line)) =>
      helpCommentLine e.indent searches ::
        (if isBase then [spaces e.indent ++ "# IDL: " ++ line] else []) ++ [sig]

/-- Concatenated blocks of a line list, indexed from `p`. -/
def expandFrom (ip : IpCatalog) (isBase : Bool) (fns : List (String × FnEntry)) :
    Nat → List String → List String
  | _, [] => []
  | p, l :: rest => expandAt ip isBase fns p l ++ expandFrom ip isBase fns (p + 1) rest

/-- The line at index `p` after the injection loop's in-place rewrite, without
the inserted comments. -/
def rewriteAt (ip : IpCatalog) (fns : List (String × FnEntry)) (p : Nat) (l : String) : String :=
  match entryAt fns p with
  | none => l
  | some (fid, _) =>
    match entryPatch ip fid l with
    | Except.ok (some (sig, _, _)) => sig
    | _ => l

/-- All lines rewritten in place, indexed from `p`. -/
def rewriteFrom (ip : IpCatalog) (fns : List (String × FnEntry)) :
    Nat → List String → List String
  | _, [] => []
  | p, l :: rest => rewriteAt ip fns p l :: rewriteFrom ip fns (p + 1) rest

/-- Does this entry's identifier match and patch successfully on its line? -/
def entryHit (ip : IpCatalog) (ls : List String) (q : String × FnEntry) : Bool :=
  match entryPatch ip q.1 ((ls.get? q.2.idx).getD "") with
  | Except.ok (some _) => true
  | _ => false

/-- Number of entries the injection loop counts as matched. -/
def matchedCount (ip : IpCatalog) (ls : List String) (fns : List (String × FnEntry)) : Nat :=
  (fns.filter (entryHit ip ls)).length

/-- The `Not implemented:` diagnostics (lines 363-365): interface functions
whose identifier matches no scanned hand-written identifier. -/
def notImplementedLines (ip : IpCatalog) (fns : List (String × FnEntry)) : List String :=
  ip.functions.filterMap (fun p =>
    if (get_func_id_match p.1 (keysOf fns)).isSome then none
    else some ("Not implemented: " ++ p.2))

/-- The `Found unknown function` diagnostics (lines 366-369): scanned
hand-written functions whose identifier matches no interface function. -/
def unknownFunctionLines (ip : IpCatalog) (fns : List (String × FnEntry)) : List String :=
  fns.filterMap (fun p =>
    if (get_func_id_match p.1 (keysOf ip.functions)).isSome then none
    else some ("Found unknown function " ++ p.2.funcname))

/-- Per-file patch report: the match counter and both diagnostic lists
(lines 362-369). -/
structure PatchReport where
  count : Nat
  notImplemented : List String
  unknown : List String
deriving DecidableEq

/-- The line-level patch pipeline of one hand-written file: scan the prepared
lines, run the injection loop, and collect the report. -/
def patchLinesRun (ip : IpCatalog) (isBase : Bool) (ls : List String) :
    Except String (List String × PatchReport) :=
  match scanFns ls with
  | Except.error e => Except.error e
  | Except.ok fns =>
    match injectAll ip isBase ls fns with
    | Except.error e => Except.error e
    | Except.ok (ls', count) =>
      Except.ok (ls', ⟨count, notImplementedLines ip fns, unknownFunctionLines ip fns⟩)

/-- The whole per-file patch (lines 293-375), with the two formatting-oracle
calls abstract: `fmtS` is the successful single-line reformatting pass
(line 300), `fmtF` the final reformatting pass (line 372); the returned string
is the text written back over the file. -/
def patchFile (fmtS fmtF : String → String) (ip : IpCatalog) (isBase : Bool)
    (src : String) : Except String (String × PatchReport) :=
  match patchLinesRun ip isBase (prepLines (fmtS src)) with
  | Except.error e => Except.error e
  | Except.ok (ls, r) => Except.ok (fmtF (joinLines ls), r)

/-!
Runtime semantics of the emitted `Flags` and `Enum` container classes
(lines 164-177 and 207-222 of the script, emitted verbatim into `flags.py`
and `enums.py`), and the declaration-ordered entry lines the emitters write
(lines 183-187 and 228-232).

A container instance's attributes are `_name` plus one attribute per keyword
argument (set by `__init__` in declaration order), beside the class/object
attributes, every one of which is underscore-prefixed.  Python's `dir()`
returns the attribute names sorted alphabetically (by code point), each once;
`__iter__` filters out the underscore-prefixed ones, yielding the names
themselves for `Flags` and `getattr(self, name)` for `Enum`.
-/

/-- Representative class/object attribute names of a container instance; all
underscore-prefixed, so `__iter__` filters every one of them out. -/
def pythonObjectAttrs : List String :=
  ["__class__", "__dict__", "__init__", "__iter__", "__module__", "__repr__"]

/-- Python `dir(obj)`: the attribute names sorted alphabetically (each name
occurs once in the attribute lists built below). -/
def pyDir (attrs : List String) : List String :=
  List.insertionSort (fun a b => strLeB a b = true) attrs

/-- The attribute names of a container built with the given member names. -/
def containerAttrs (memberNames : List String) : List String :=
  pythonObjectAttrs ++ "_name" :: memberNames

/-- Iterating an emitted `Flags` container (lines 171-172): the
non-underscore attribute names, in `dir()` order. -/
def flagsIterNames (memberNames : List String) : List String :=
  (pyDir (containerAttrs memberNames)).filter (fun k => !strStarts k "_")

/-- Iterating an emitted `Enum` container (lines 214-217): `getattr` applied
to each non-underscore attribute name, in `dir()` order. -/
def enumIterValues (kwargs : List (String × String)) : List String :=
  (flagsIterNames (keysOf kwargs)).map (fun k => (List.lookup k kwargs).getD "")

/-- The `pylines` chunks one flag-set contributes to the emitted `flags.py`
(lines 184-187): the header, one `    key=value,` line per member in catalog
order, and the closing bracket. -/
def flagsEntryChunks (name : String) (d : List (String × Int)) : List String :=
  (name ++ " = Flags(\n    \"" ++ name ++ "\",") ::
    d.map (fun kv => "    " ++ kv.1 ++ "=" ++ toString kv.2 ++ ",") ++ [")\n"]

/-- The `pylines` chunks one enumeration contributes to the emitted `enums.py`
(lines 229-232). -/
def enumEntryChunks (name : String) (d : List (String × String)) : List String :=
  (name ++ " = Enum(\n    \"" ++ name ++ "\",") ::
    d.map (fun kv => "    " ++ kv.1 ++ "=\"" ++ kv.2 ++ "\",") ++ [")\n"]

/-!
Helper lemmas.
-/

/-- The early-return loop over candidates is `List.find?` of membership. -/
theorem firstIn_eq_find (d : List String) (l : List String) :
    firstIn d l = l.find? (fun c => decide (c ∈ d)) := by
  induction l with
  | nil => rfl
  | cons c cs ih =>
    by_cases h : c ∈ d <;> simp [firstIn, List.find?, h, ih]

/-- Looking a key up in a duplicate-free association list finds its pair's
value. -/
theorem lookup_of_mem_nodup {α : Type} (l : List (String × α)) (k : String) (v : α)
    (hnd : (keysOf l).Nodup) (hm : (k, v) ∈ l) : List.lookup k l = some v := by
  induction l with
  | nil => simp at hm
  | cons p t ih =>
    simp only [keysOf, List.map_cons, List.nodup_cons] at hnd
    rcases List.mem_cons.mp hm with h | h
    · rw [← h]; simp [List.lookup]
    · have hk : (k == p.1) = false := by
        refine beq_eq_false_iff_ne.mpr fun he => ?_
        exact hnd.1 (he ▸ (List.mem_map.mpr ⟨(k, v), h, rfl⟩))
      simp only [List.lookup, hk]
      exact ih hnd.2 h

/-- Membership in the translation table of an entry contributed by a shared
enumeration whose transformed member name resolves natively. -/
theorem buildEnummap_mem_of (hp : HpEnums) (ip : IpEnums) (name : String)
    (hm : List (String × Int)) (im : List (String × String)) (ikey : String) (v : Int)
    (h1 : (name, hm) ∈ hp) (h2 : List.lookup name ip = some im)
    (h3 : ikey ∈ im.map Prod.snd) (h4 : List.lookup (toNativeKey ikey) hm = some v) :
    (name ++ "." ++ ikey, v) ∈ buildEnummap hp ip := by
  induction hp with
  | nil => simp at h1
  | cons p t ih =>
    rcases List.mem_cons.mp h1 with h | h
    · subst h
      show _ ∈ _ ++ _
      refine List.mem_append.mpr (Or.inl ?_)
      rw [h2]
      exact List.mem_filterMap.mpr ⟨ikey, h3, by rw [h4]; rfl⟩
    · obtain ⟨n0, hm0⟩ := p
      show _ ∈ _ ++ _
      exact List.mem_append.mpr (Or.inr (ih h))

/-- Membership in the missing-member diagnostics of a shared enumeration
whose transformed member name does not resolve natively. -/
theorem enummapMissing_mem_of (hp : HpEnums) (ip : IpEnums) (name : String)
    (hm : List (String × Int)) (im : List (String × String)) (ikey : String)
    (h1 : (name, hm) ∈ hp) (h2 : List.lookup name ip = some im)
    (h3 : ikey ∈ im.map Prod.snd) (h4 : List.lookup (toNativeKey ikey) hm = none) :
    (name ++ "." ++ ikey ++ " is missing") ∈ enummapMissingLines hp ip := by
  induction hp with
  | nil => simp at h1
  | cons p t ih =>
    rcases List.mem_cons.mp h1 with h | h
    · subst h
      show _ ∈ _ ++ _
      refine List.mem_append.mpr (Or.inl ?_)
      rw [h2]
      exact List.mem_filterMap.mpr ⟨ikey, h3, by simp [enumMissingOf, h4]⟩
    · obtain ⟨n0, hm0⟩ := p
      show _ ∈ _ ++ _
      exact List.mem_append.mpr (Or.inr (ih h))

/-!
Claims.
-/

/-- C5: `get_func_id_match` returns the first element of the ordered candidate
list (the identifier itself, the identifier with the substring `async`
removed, the identifier with `async` appended) that is a key of the table,
and no match when none of the three is. -/
theorem claim_C5 (func_id : String) (d : List String) :
    get_func_id_match func_id d =
      (funcIdCandidates func_id).find? (fun c => decide (c ∈ d)) ∧
    (func_id ∉ d → pyReplace func_id "async" "" ∉ d → func_id ++ "async" ∉ d →
      get_func_id_match func_id d = none) := by
  refine ⟨firstIn_eq_find d (funcIdCandidates func_id), fun h1 h2 h3 => ?_⟩
  simp [get_func_id_match, funcIdCandidates, firstIn, h1, h2, h3]

/-- C4, counterexample: the formatter's error stream being non-empty does not
abort the call; a non-empty diagnostic stream without the substring `error`
(as `black` emits on success, e.g. `1 file reformatted`) is returned as a
successful result. -/
theorem claim_C4_counterexample :
    blackenPost false "formatted text\n" "1 file reformatted" =
      Except.ok "formatted text\n" ∧
    "1 file reformatted" ≠ "" := by decide

/-- C4, amended: each call of the formatting step aborts, raising an error
that carries the formatter subprocess's diagnostic stream, exactly when the
lower-cased diagnostic stream contains the substring `error`; otherwise the
reformatted text (post-processed in single-line mode) is returned. -/
theorem claim_C4_amended (singleline : Bool) (result log : String) :
    (blackenPost singleline result log = Except.error log ↔
      pyContains (pyLower log) "error" = true) ∧
    (pyContains (pyLower log) "error" = false →
      blackenPost singleline result log =
        Except.ok
          (if singleline then
            pyReplace (pyReplace result "(\n        self" "(self") ",\n    ):\n" "):\n"
          else result)) ∧
    (∀ e, blackenPost singleline result log = Except.error e → e = log) := by
  unfold blackenPost
  by_cases h : pyContains (pyLower log) "error" = true
  · simp [h]
  · simp only [Bool.not_eq_true] at h
    simp [h]

/-- C1: for every enumeration name present in both catalogs and every member
value of that enumeration in the interface catalog, the transformed member
name is looked up in the same-named native enumeration: on success the
translation table contains `"<EnumName>.<member>"` mapped to the native code,
on failure the member is reported missing; in particular the interface
enumeration `PowerPreference` against the native `WGPUPowerPreference`
(catalogued under the shared name by the header parser) yields exactly the
two expected entries. -/
theorem claim_C1 (hp : HpEnums) (ip : IpEnums) (name : String)
    (hm : List (String × Int)) (im : List (String × String)) (ikey : String) (cl ch : Int)
    (h1 : (name, hm) ∈ hp) (h2 : List.lookup name ip = some im)
    (h3 : ikey ∈ im.map Prod.snd) :
    ((∀ v, List.lookup (toNativeKey ikey) hm = some v →
        (name ++ "." ++ ikey, v) ∈ buildEnummap hp ip) ∧
     (List.lookup (toNativeKey ikey) hm = none →
        (name ++ "." ++ ikey ++ " is missing") ∈ enummapMissingLines hp ip)) ∧
    buildEnummap
        [(hParserName "WGPUPowerPreference", [("LowPower", cl), ("HighPerformance", ch)])]
        [("PowerPreference",
          [("low_power", "low-power"), ("high_performance", "high-performance")])]
      = [("PowerPreference.low-power", cl), ("PowerPreference.high-performance", ch)] := by
  refine ⟨⟨fun v h4 => buildEnummap_mem_of hp ip name hm im ikey v h1 h2 h3 h4,
           fun h4 => enummapMissing_mem_of hp ip name hm im ikey h1 h2 h3 h4⟩, rfl⟩

/-- C1, witness: the general part applied to the concrete `PowerPreference`
scenario, member value `low-power`, native code `7`. -/
theorem claim_C1_witness :
    ((∀ v, List.lookup (toNativeKey "low-power") [("LowPower", (7 : Int)), ("HighPerformance", 8)] = some v →
        ("PowerPreference" ++ "." ++ "low-power", v) ∈
          buildEnummap [("PowerPreference", [("LowPower", 7), ("HighPerformance", 8)])]
            [("PowerPreference",
              [("low_power", "low-power"), ("high_performance", "high-performance")])]) ∧
     (List.lookup (toNativeKey "low-power") [("LowPower", (7 : Int)), ("HighPerformance", 8)] = none →
        ("PowerPreference" ++ "." ++ "low-power" ++ " is missing") ∈
          enummapMissingLines [("PowerPreference", [("LowPower", 7), ("HighPerformance", 8)])]
            [("PowerPreference",
              [("low_power", "low-power"), ("high_performance", "high-performance")])])) ∧
    buildEnummap
        [(hParserName "WGPUPowerPreference", [("LowPower", (7 : Int)), ("HighPerformance", 8)])]
        [("PowerPreference",
          [("low_power", "low-power"), ("high_performance", "high-performance")])]
      = [("PowerPreference.low-power", 7), ("PowerPreference.high-performance", 8)] :=
  claim_C1 [("PowerPreference", [("LowPower", 7), ("HighPerformance", 8)])]
    [("PowerPreference", [("low_power", "low-power"), ("high_performance", "high-performance")])]
    "PowerPreference" [("LowPower", 7), ("HighPerformance", 8)]
    [("low_power", "low-power"), ("high_performance", "high-performance")]
    "low-power" 7 8 (by decide) (by decide) (by decide)

/-- C7: every entry of the translation table decomposes as
`"<EnumName>.<member>" -> code` where the enumeration is present in both
catalogs (natively under the same name), the member is one of that
enumeration's interface member values, and the code is the native integer
stored under the transformed member name; no entry comes from an enumeration
absent from either catalog. -/
theorem claim_C7 (hp : HpEnums) (ip : IpEnums) (entry : String × Int)
    (h : entry ∈ buildEnummap hp ip) :
    ∃ name hm im ikey,
      (name, hm) ∈ hp ∧ List.lookup name ip = some im ∧
      ikey ∈ im.map Prod.snd ∧ entry.1 = name ++ "." ++ ikey ∧
      List.lookup (toNativeKey ikey) hm = some entry.2 := by
  induction hp with
  | nil => simp [buildEnummap] at h
  | cons p t ih =>
    obtain ⟨name, hm⟩ := p
    rcases List.mem_append.mp h with h' | h'
    · revert h'
      cases h2 : List.lookup name ip with
      | none => intro h'; simp at h'
      | some im =>
        intro h'
        obtain ⟨ikey, hik, hv⟩ := List.mem_filterMap.mp h'
        cases h4 : List.lookup (toNativeKey ikey) hm with
        | none => rw [h4] at hv; exact absurd hv (by simp)
        | some v =>
          rw [h4] at hv
          have hv2 : (name ++ "." ++ ikey, v) = entry := Option.some.inj hv
          refine ⟨name, hm, im, ikey, List.mem_cons_self _ _, h2, hik, ?_, ?_⟩
          · rw [← hv2]
          · rw [h4, ← hv2]
    · obtain ⟨name', hm', im', ikey', hh1, hh2, hh3, hh4, hh5⟩ := ih h'
      exact ⟨name', hm', im', ikey', List.mem_cons_of_mem _ hh1, hh2, hh3, hh4, hh5⟩

/-- C7, witness: the invariant applied to a concrete table entry. -/
theorem claim_C7_witness :
    ∃ name hm im ikey,
      (name, hm) ∈ [("Dim", [("D1", (3 : Int))])] ∧
      List.lookup name ([("Dim", [("d1", "1d")])] : IpEnums) = some im ∧
      ikey ∈ im.map Prod.snd ∧
      (("Dim.1d", (3 : Int)) : String × Int).1 = name ++ "." ++ ikey ∧
      List.lookup (toNativeKey ikey) hm = some (("Dim.1d", (3 : Int)) : String × Int).2 :=
  claim_C7 [("Dim", [("D1", 3)])] [("Dim", [("d1", "1d")])] ("Dim.1d", 3) (by decide)

/-- Appending a one-character head to equal strings is injective on the tail. -/
theorem appendSpace_inj (a b : String) (h : (" " ++ a : String) = " " ++ b) : a = b := by
  have h2 := congrArg String.data h
  simp only [String.data_append] at h2
  exact String.ext (List.append_cancel_left h2)

/-- A line starting with a space differs from a line starting with `c: `. -/
theorem spaceLine_ne_c (a b : String) : (" " ++ a : String) ≠ ("c: " ++ b) := by
  intro h
  have h2 := congrArg String.data h
  simp [String.data_append] at h2

/-- A line starting with a space differs from a line starting with `i: `. -/
theorem spaceLine_ne_i (a b : String) : (" " ++ a : String) ≠ ("i: " ++ b) := by
  intro h
  have h2 := congrArg String.data h
  simp [String.data_append] at h2

/-- Block of a shared struct, when the interface catalog has the name. -/
theorem structBlock_some (is : List (String × List String)) (n0 : String)
    (k0 k2 : List String) (h : List.lookup n0 is = some k2) :
    structBlock is n0 k0 =
      if structSetsDiffer k0 k2 then
        [" " ++ n0, "c: " ++ pyReprStrList k0, "i: " ++ pyReprStrList k2]
      else [] := by
  unfold structBlock
  rw [h]

/-- A name line in the struct-comparison report names a native struct of the
catalog. -/
theorem structCompareLines_name_mem (hs is : List (String × List String)) (x : String)
    (h : (" " ++ x) ∈ structCompareLines hs is) : x ∈ keysOf hs := by
  induction hs with
  | nil => simp [structCompareLines] at h
  | cons p t ih =>
    obtain ⟨n0, k0⟩ := p
    rcases List.mem_append.mp h with h' | h'
    · cases hlk : List.lookup n0 is with
      | none => rw [structBlock, hlk] at h'; simp at h'
      | some k2 =>
        rw [structBlock_some is n0 k0 k2 hlk] at h'
        cases hb : structSetsDiffer k0 k2 with
        | false => rw [hb] at h'; simp at h'
        | true =>
          rw [hb] at h'
          simp only [if_true, List.mem_cons, List.not_mem_nil, or_false] at h'
          rcases h' with h' | h' | h'
          · have hx := appendSpace_inj x n0 h'
            subst hx
            simp [keysOf]
          · exact absurd h' (spaceLine_ne_c x _)
          · exact absurd h' (spaceLine_ne_i x _)
    · exact List.mem_cons_of_mem _ (ih h')

/-- C6: for every structure name present in both catalogs, the reconciler
emits a member-mismatch report — the name line, and both field-name lists —
exactly when the normalized native field-name set (lower-cased, `_length`
removed, underscores removed, minus the placeholder `todo`) differs from the
normalized interface field-name set (lower-cased, minus `label`). -/
theorem claim_C6 (hs is : List (String × List String)) (name : String)
    (keys1 keys2 : List String)
    (hnd : (keysOf hs).Nodup)
    (h1 : (name, keys1) ∈ hs) (h2 : List.lookup name is = some keys2) :
    (((" " ++ name) ∈ structCompareLines hs is) ↔
      ((keys1.map normCKey).toFinset.erase "todo" ≠ (keys2.map pyLower).toFinset.erase "label")) ∧
    ((keys1.map normCKey).toFinset.erase "todo" ≠ (keys2.map pyLower).toFinset.erase "label" →
      ("c: " ++ pyReprStrList keys1) ∈ structCompareLines hs is ∧
      ("i: " ++ pyReprStrList keys2) ∈ structCompareLines hs is) := by
  induction hs with
  | nil => simp at h1
  | cons p t ih =>
    obtain ⟨n0, k0⟩ := p
    simp only [keysOf, List.map_cons, List.nodup_cons] at hnd
    rcases List.mem_cons.mp h1 with h | h
    · have hn : n0 = name := congrArg Prod.fst h.symm
      have hk : k0 = keys1 := congrArg Prod.snd h.symm
      subst hn; subst hk
      have hblock := structBlock_some is n0 k0 keys2 h2
      constructor
      · constructor
        · intro hmem
          rcases List.mem_append.mp hmem with h' | h'
          · rw [hblock] at h'
            cases hb : structSetsDiffer k0 keys2 with
            | false => rw [hb] at h'; simp at h'
            | true => exact of_decide_eq_true hb
          · have hx := structCompareLines_name_mem t is _ h'
            exact absurd hx hnd.1
        · intro hd
          have hb : structSetsDiffer k0 keys2 = true := decide_eq_true hd
          refine List.mem_append.mpr (Or.inl ?_)
          rw [hblock, hb]
          simp
      · intro hd
        have hb : structSetsDiffer k0 keys2 = true := decide_eq_true hd
        refine ⟨List.mem_append.mpr (Or.inl ?_), List.mem_append.mpr (Or.inl ?_)⟩ <;>
        · rw [hblock, hb]
          simp
    · have hne : n0 ≠ name := by
        intro he
        exact hnd.1 (he ▸ List.mem_map.mpr ⟨(name, keys1), h, rfl⟩)
      have ihr := ih hnd.2 h
      constructor
      · constructor
        · intro hmem
          rcases List.mem_append.mp hmem with h' | h'
          · cases hlk : List.lookup n0 is with
            | none => rw [structBlock, hlk] at h'; simp at h'
            | some k2 =>
              rw [structBlock_some is n0 k0 k2 hlk] at h'
              cases hb : structSetsDiffer k0 k2 with
              | false => rw [hb] at h'; simp at h'
              | true =>
                rw [hb] at h'
                simp only [if_true, List.mem_cons, List.not_mem_nil, or_false] at h'
                rcases h' with h' | h' | h'
                · exact absurd (appendSpace_inj name n0 h').symm hne
                · exact absurd h' (spaceLine_ne_c name _)
                · exact absurd h' (spaceLine_ne_i name _)
          · exact ihr.1.mp h'
        · intro hd
          exact List.mem_append.mpr (Or.inr (ihr.1.mpr hd))
      · intro hd
        exact ⟨List.mem_append.mpr (Or.inr (ihr.2 hd).1),
               List.mem_append.mpr (Or.inr (ihr.2 hd).2)⟩


/-- Boolean code-point comparison agrees with the lexicographic list order. -/
theorem leL_iff_not_lex : ∀ (as bs : List Char), leL as bs = true ↔ ¬ List.Lex (· < ·) bs as
  | [], bs => iff_of_true rfl (List.Lex.not_nil_right _ bs)
  | a :: as, [] => iff_of_false (by simp [leL]) (fun h => h List.Lex.nil)
  | a :: as, b :: bs => by
    by_cases hab : a = b
    · subst hab
      simp only [leL, eq_self_iff_true, if_true]
      rw [leL_iff_not_lex as bs]
      exact not_congr List.Lex.cons_iff.symm
    · simp only [leL, if_neg hab, decide_eq_true_eq]
      constructor
      · intro hlt h
        cases h with
        | cons h2 => exact hab rfl
        | rel h2 => exact absurd hlt (lt_asymm h2)
      · intro hn
        rcases lt_trichotomy a b with h | h | h
        · exact h
        · exact absurd h hab
        · exact absurd (List.Lex.rel h) hn

/-- Boolean string comparison agrees with the standard string order. -/
theorem strLeB_iff (a b : String) : strLeB a b = true ↔ a ≤ b := by
  rw [strLeB, leL_iff_not_lex, String.le_iff_toList_le]
  show ¬ (String.toList b < String.toList a) ↔ _
  exact not_lt

instance : IsTotal String (fun a b => strLeB a b = true) :=
  ⟨fun a b => (le_total a b).imp (strLeB_iff a b).mpr (strLeB_iff b a).mpr⟩

instance : IsTrans String (fun a b => strLeB a b = true) :=
  ⟨fun a b c hab hbc =>
    (strLeB_iff a c).mpr (le_trans ((strLeB_iff a b).mp hab) ((strLeB_iff b c).mp hbc))⟩

/-- Attribute enumeration is alphabetically sorted. -/
theorem pyDir_sorted (attrs : List String) :
    List.Sorted (fun a b : String => a ≤ b) (pyDir attrs) :=
  (List.sorted_insertionSort _ attrs).imp (fun hab => (strLeB_iff _ _).mp hab)

/-- Iterating a `Flags` container yields an alphabetically sorted list. -/
theorem flagsIterNames_sorted (names : List String) :
    List.Sorted (fun a b : String => a ≤ b) (flagsIterNames names) :=
  List.Pairwise.filter _ (pyDir_sorted (containerAttrs names))

/-- Iterating a `Flags` container yields exactly the non-underscore member
names (all helper attributes are underscore-prefixed and filtered out). -/
theorem flagsIterNames_perm (names : List String) :
    (flagsIterNames names).Perm (names.filter (fun k => !strStarts k "_")) :=
  (List.perm_insertionSort _ (containerAttrs names)).filter _

/-- C6, witness: a shared struct whose normalized field-name sets differ is
reported with both field-name lists. -/
theorem claim_C6_witness :
    ((((" " ++ "Extent3D") ∈
        structCompareLines [("Extent3D", ["width", "todo"])] [("Extent3D", ["label", "depth"])]) ↔
      ((["width", "todo"].map normCKey).toFinset.erase "todo" ≠
        (["label", "depth"].map pyLower).toFinset.erase "label")) ∧
     ((["width", "todo"].map normCKey).toFinset.erase "todo" ≠
        (["label", "depth"].map pyLower).toFinset.erase "label" →
      ("c: " ++ pyReprStrList ["width", "todo"]) ∈
        structCompareLines [("Extent3D", ["width", "todo"])] [("Extent3D", ["label", "depth"])] ∧
      ("i: " ++ pyReprStrList ["label", "depth"]) ∈
        structCompareLines [("Extent3D", ["width", "todo"])] [("Extent3D", ["label", "depth"])])) :=
  claim_C6 [("Extent3D", ["width", "todo"])] [("Extent3D", ["label", "depth"])]
    "Extent3D" ["width", "todo"] ["label", "depth"] (by decide) (by decide) (by decide)

/-- C10: iterating a generated `Flags` container yields its member names, and
iterating a generated `Enum` container yields its member string values, in
alphabetical order of the (non-underscore-prefixed) attribute names obtained
by reflection — not in declaration order, even though the emitted file lists
the entries in declaration order (the concrete conjuncts exhibit iteration
orders that differ from the declaration order while the emitted entry follows
it). -/
theorem claim_C10 (flagNames : List String) (kwargs : List (String × String))
    (hnd : (keysOf kwargs).Nodup)
    (hpub : ∀ k ∈ keysOf kwargs, strStarts k "_" = false) :
    (List.Sorted (fun a b : String => a ≤ b) (flagsIterNames flagNames) ∧
     (flagsIterNames flagNames).Perm (flagNames.filter (fun k => !strStarts k "_"))) ∧
    (List.Sorted (fun a b : String => a ≤ b) (flagsIterNames (keysOf kwargs)) ∧
     (enumIterValues kwargs).Perm (kwargs.map Prod.snd)) ∧
    (flagsIterNames ["mapread", "copydst", "mapwrite"] = ["copydst", "mapread", "mapwrite"] ∧
     enumIterValues [("d2", "2d"), ("d1", "1d")] = ["1d", "2d"] ∧
     enumEntryChunks "TextureDimension" [("d2", "2d"), ("d1", "1d")] =
       ["TextureDimension = Enum(\n    \"TextureDimension\",", "    d2=\"2d\",",
        "    d1=\"1d\",", ")\n"]) := by
  refine ⟨⟨flagsIterNames_sorted flagNames, flagsIterNames_perm flagNames⟩,
          ⟨flagsIterNames_sorted (keysOf kwargs), ?_⟩, by decide, by decide, by decide⟩
  have hfself : (keysOf kwargs).filter (fun k => !strStarts k "_") = keysOf kwargs :=
    List.filter_eq_self.mpr (fun k hk => by rw [hpub k hk]; rfl)
  have hperm : (flagsIterNames (keysOf kwargs)).Perm (keysOf kwargs) := by
    have h := flagsIterNames_perm (keysOf kwargs)
    rwa [hfself] at h
  have hmap := hperm.map (fun k => (List.lookup k kwargs).getD "")
  have heq : (keysOf kwargs).map (fun k => (List.lookup k kwargs).getD "") =
      kwargs.map Prod.snd := by
    rw [keysOf, List.map_map]
    refine List.map_congr_left (fun p hp => ?_)
    have hl := lookup_of_mem_nodup kwargs p.1 p.2 hnd (by rwa [Prod.mk.eta])
    simp [Function.comp, hl]
  rw [heq] at hmap
  exact hmap

/-- C10, witness: the iteration-order properties at a concrete enumeration. -/
theorem claim_C10_witness :
    (List.Sorted (fun a b : String => a ≤ b) (flagsIterNames ["mapread", "copydst"]) ∧
     (flagsIterNames ["mapread", "copydst"]).Perm
       (["mapread", "copydst"].filter (fun k => !strStarts k "_"))) ∧
    (List.Sorted (fun a b : String => a ≤ b)
       (flagsIterNames (keysOf [("d2", "2d"), ("d1", "1d")])) ∧
     (enumIterValues [("d2", "2d"), ("d1", "1d")]).Perm
       ([("d2", "2d"), ("d1", "1d")].map Prod.snd)) ∧
    (flagsIterNames ["mapread", "copydst", "mapwrite"] = ["copydst", "mapread", "mapwrite"] ∧
     enumIterValues [("d2", "2d"), ("d1", "1d")] = ["1d", "2d"] ∧
     enumEntryChunks "TextureDimension" [("d2", "2d"), ("d1", "1d")] =
       ["TextureDimension = Enum(\n    \"TextureDimension\",", "    d2=\"2d\",",
        "    d1=\"1d\",", ")\n"]) :=
  claim_C10 ["mapread", "copydst"] [("d2", "2d"), ("d1", "1d")] (by decide) (by decide)

/-- C2: when the matched interface declaration has exactly one parameter whose
type name ends in `Options` or `Descriptor`, the patcher rewrites the
signature line to one parameter per struct field (each field's default
rendering), replaces a first field rendered `label: str` by `label=""`, and
prefixes `self, *` (only `*` for a `requestadapter` identifier); the second
conjunct is the concrete `BufferDescriptor` scenario, rewriting to
`self, *, label="", size`. -/
theorem claim_C2 (ip : IpCatalog) (isBase : Bool) (api_lines : List String) (count : Nat)
    (func_id : String) (e : FnEntry) (fid line t0 : String)
    (argnames : List String) (a0 : String) (rest : List String)
    (hmatch : get_func_id_match func_id (keysOf ip.functions) = some fid)
    (hline : List.lookup fid ip.functions = some line)
    (hargs : parseIdlArgs line = Except.ok (argnames, [t0]))
    (hend : (strEnds t0 "Options" || strEnds t0 "Descriptor") = true)
    (hgpu : strStarts t0 "GPU" = true)
    (hstruct : List.lookup (⟨t0.data.drop 3⟩ : String) ip.structs = some (a0 :: rest)) :
    (injectOne ip isBase (api_lines, count) (func_id, e) =
      Except.ok
        (List.insertIdx e.idx
          (helpCommentLine e.indent [fid, (⟨t0.data.drop 3⟩ : String)])
          (let sig := pyBreakFirstHead ((api_lines.get? e.idx).getD "") '(' ++ "(" ++
              joinCommaSp
                ((if pyContains func_id "requestadapter" then ["*"] else ["self", "*"]) ++
                  (if a0 = "label: str" then "label=\"\"" else a0) :: rest) ++ "):"
           let ls1 := api_lines.set e.idx sig
           if isBase then
             List.insertIdx e.idx (spaces e.indent ++ "# IDL: " ++ line) ls1
           else ls1),
         count + 1)) ∧
    injectOne
        { functions := [("devicecreatebuffer", "createBuffer(GPUBufferDescriptor descriptor)")],
          structs := [("BufferDescriptor", ["label: str", "size"])] }
        true (["class GPUDevice:", "    def createBuffer(self, whatever):", ""], 0)
        ("devicecreatebuffer", ⟨"GPUDevice.createBuffer", 1, 4⟩) =
      Except.ok
        (["class GPUDevice:",
          "    # wgpu.help('devicecreatebuffer', 'BufferDescriptor', dev=True)",
          "    # IDL: createBuffer(GPUBufferDescriptor descriptor)",
          "    def createBuffer(self, *, label=\"\", size):", ""], 1) := by
  refine ⟨?_, by decide⟩
  simp only [injectOne, entryPatch, entrySigArgs, hmatch, hline, hargs, hend, hgpu, hstruct,
    Bool.not_true, if_true, Bool.false_eq_true, if_false]
  by_cases hra : pyContains func_id "requestadapter" = true <;>
    by_cases hlab : a0 = "label: str" <;>
      simp [hra, hlab, List.filter, hgpu]

/-- C2, witness: the characterization applied to the concrete
`BufferDescriptor` scenario. -/
theorem claim_C2_witness :
    (injectOne
        { functions := [("devicecreatebuffer", "createBuffer(GPUBufferDescriptor descriptor)")],
          structs := [("BufferDescriptor", ["label: str", "size"])] }
        true (["class GPUDevice:", "    def createBuffer(self, whatever):", ""], 0)
        ("devicecreatebuffer", (⟨"GPUDevice.createBuffer", 1, 4⟩ : FnEntry)) =
      Except.ok
        (List.insertIdx (⟨"GPUDevice.createBuffer", 1, 4⟩ : FnEntry).idx
          (helpCommentLine (⟨"GPUDevice.createBuffer", 1, 4⟩ : FnEntry).indent
            ["devicecreatebuffer",
             (⟨("GPUBufferDescriptor" : String).data.drop 3⟩ : String)])
          (let sig := pyBreakFirstHead
              ((["class GPUDevice:", "    def createBuffer(self, whatever):", ""].get?
                  (⟨"GPUDevice.createBuffer", 1, 4⟩ : FnEntry).idx).getD "") '(' ++ "(" ++
              joinCommaSp
                ((if pyContains "devicecreatebuffer" "requestadapter" then ["*"]
                  else ["self", "*"]) ++
                  (if ("label: str" : String) = "label: str" then "label=\"\""
                   else "label: str") :: ["size"]) ++ "):"
           let ls1 := ["class GPUDevice:", "    def createBuffer(self, whatever):", ""].set
              (⟨"GPUDevice.createBuffer", 1, 4⟩ : FnEntry).idx sig
           if true then
             List.insertIdx (⟨"GPUDevice.createBuffer", 1, 4⟩ : FnEntry).idx
               (spaces (⟨"GPUDevice.createBuffer", 1, 4⟩ : FnEntry).indent ++ "# IDL: " ++
                 "createBuffer(GPUBufferDescriptor descriptor)") ls1
           else ls1),
         0 + 1)) ∧
    injectOne
        { functions := [("devicecreatebuffer", "createBuffer(GPUBufferDescriptor descriptor)")],
          structs := [("BufferDescriptor", ["label: str", "size"])] }
        true (["class GPUDevice:", "    def createBuffer(self, whatever):", ""], 0)
        ("devicecreatebuffer", ⟨"GPUDevice.createBuffer", 1, 4⟩) =
      Except.ok
        (["class GPUDevice:",
          "    # wgpu.help('devicecreatebuffer', 'BufferDescriptor', dev=True)",
          "    # IDL: createBuffer(GPUBufferDescriptor descriptor)",
          "    def createBuffer(self, *, label=\"\", size):", ""], 1) :=
  claim_C2
    { functions := [("devicecreatebuffer", "createBuffer(GPUBufferDescriptor descriptor)")],
      structs := [("BufferDescriptor", ["label: str", "size"])] }
    true ["class GPUDevice:", "    def createBuffer(self, whatever):", ""] 0
    "devicecreatebuffer" ⟨"GPUDevice.createBuffer", 1, 4⟩
    "devicecreatebuffer" "createBuffer(GPUBufferDescriptor descriptor)"
    "GPUBufferDescriptor" ["descriptor"] "label: str" ["size"]
    (by decide) (by decide) (by decide) (by decide) (by decide) (by decide)

/-- C3, counterexample: a catalog lookup performed while injecting a signature
can abort the run: a matched declaration whose single `Descriptor` parameter
names a struct absent from the struct table raises a fatal `KeyError`. -/
theorem claim_C3_counterexample :
    injectOne
        { functions := [("requestdevice", "requestDevice(GPUDeviceDescriptor descriptor)")],
          structs := [] }
        false (["def requestDevice(self, x):", ""], 0)
        ("requestdevice", ⟨"requestDevice", 0, 0⟩) =
      Except.error "KeyError: DeviceDescriptor" := by decide

/-- C3, amended: an identifier with no catalog match never aborts the run — it
leaves the lines untouched and is only reported as unmatched; however, the
struct-table lookup performed while injecting a matched descriptor-style
signature is fatal when the struct name is absent (`KeyError`), so lookups
during injection are not unconditionally non-fatal. -/
theorem claim_C3_amended (ip : IpCatalog) (isBase : Bool) (st : List String × Nat)
    (func_id : String) (e : FnEntry) :
    ((get_func_id_match func_id (keysOf ip.functions) = none →
        injectOne ip isBase st (func_id, e) = Except.ok st) ∧
     (∀ fns : List (String × FnEntry), (func_id, e) ∈ fns →
        get_func_id_match func_id (keysOf ip.functions) = none →
        ("Found unknown function " ++ e.funcname) ∈ unknownFunctionLines ip fns)) ∧
    (∀ fid line argnames t0,
        get_func_id_match func_id (keysOf ip.functions) = some fid →
        List.lookup fid ip.functions = some line →
        parseIdlArgs line = Except.ok (argnames, [t0]) →
        (strEnds t0 "Options" || strEnds t0 "Descriptor") = true →
        strStarts t0 "GPU" = true →
        List.lookup (⟨t0.data.drop 3⟩ : String) ip.structs = none →
        injectOne ip isBase st (func_id, e) =
          Except.error ("KeyError: " ++ (⟨t0.data.drop 3⟩ : String))) := by
  refine ⟨⟨fun h0 => ?_, fun fns hmem h0 => ?_⟩, fun fid line argnames t0 h1 h2 h3 h4 h5 h6 => ?_⟩
  · simp only [injectOne, entryPatch, entrySigArgs, h0]
  · exact List.mem_filterMap.mpr ⟨(func_id, e), hmem, by simp [h0]⟩
  · simp only [injectOne, entryPatch, entrySigArgs, h1, h2, h3, h4, h5, h6, Bool.not_true,
      Bool.false_eq_true, if_false]
    simp

/-- C9: a hand-written exposed function whose normalized identifier matches
none of the three fallback candidates receives no injected comment lines and
no signature rewrite (the injection step returns its input unchanged), and its
qualified name appears verbatim in a `Found unknown function` diagnostic. -/
theorem claim_C9 (ip : IpCatalog) (isBase : Bool) (st : List String × Nat)
    (func_id : String) (e : FnEntry) (fns : List (String × FnEntry))
    (hnomatch : get_func_id_match func_id (keysOf ip.functions) = none)
    (hmem : (func_id, e) ∈ fns) :
    injectOne ip isBase st (func_id, e) = Except.ok st ∧
    ("Found unknown function " ++ e.funcname) ∈ unknownFunctionLines ip fns := by
  constructor
  · simp only [injectOne, entryPatch, entrySigArgs, hnomatch]
  · exact List.mem_filterMap.mpr ⟨(func_id, e), hmem, by simp [hnomatch]⟩

/-- C9, witness: a hand-written function with no sync/async counterpart is
left untouched and reported. -/
theorem claim_C9_witness :
    injectOne
        { functions := [("devicecreatebuffer", "createBuffer(GPUBufferDescriptor d)")],
          structs := [] }
        true (["def frobnicate(self, x):", ""], 0)
        ("devicefrobnicate", (⟨"GPUDevice.frobnicate", 0, 4⟩ : FnEntry)) =
      Except.ok (["def frobnicate(self, x):", ""], 0) ∧
    ("Found unknown function " ++ (⟨"GPUDevice.frobnicate", 0, 4⟩ : FnEntry).funcname) ∈
      unknownFunctionLines
        { functions := [("devicecreatebuffer", "createBuffer(GPUBufferDescriptor d)")],
          structs := [] }
        [("devicefrobnicate", ⟨"GPUDevice.frobnicate", 0, 4⟩)] :=
  claim_C9
    { functions := [("devicecreatebuffer", "createBuffer(GPUBufferDescriptor d)")],
      structs := [] }
    true (["def frobnicate(self, x):", ""], 0)
    "devicefrobnicate" ⟨"GPUDevice.frobnicate", 0, 4⟩
    [("devicefrobnicate", ⟨"GPUDevice.frobnicate", 0, 4⟩)]
    (by decide) (by decide)

theorem bf_no_sep (sep : Char) : ∀ (l : List Char), ∀ c ∈ (breakFirstL sep l).1, c ≠ sep
  | [], c, hc => by simp [breakFirstL] at hc
  | a :: l, c, hc => by
    by_cases ha : a = sep
    · rw [breakFirstL, if_pos ha] at hc
      simp at hc
    · rw [breakFirstL, if_neg ha] at hc
      rcases List.mem_cons.mp hc with h | h
      · exact h ▸ ha
      · exact bf_no_sep sep l c h

theorem bf_append (sep : Char) :
    ∀ (A B : List Char), (∀ c ∈ A, c ≠ sep) →
      breakFirstL sep (A ++ B) =
        (A ++ (breakFirstL sep B).1, (breakFirstL sep B).2)
  | [], B, _ => by simp
  | a :: A, B, h => by
    have ha : a ≠ sep := h a (List.mem_cons_self _ _)
    rw [List.cons_append, breakFirstL, if_neg ha,
      bf_append sep A B (fun c hc => h c (List.mem_cons_of_mem _ hc))]
    rfl

theorem bf_split (sep : Char) (A B : List Char) (h : ∀ c ∈ A, c ≠ sep) :
    breakFirstL sep (A ++ sep :: B) = (A, some B) := by
  rw [bf_append sep A (sep :: B) h, breakFirstL, if_pos rfl]
  simp

theorem sig_break_head (s t : String) :
    pyBreakFirstHead (pyBreakFirstHead s '(' ++ "(" ++ t) '(' = pyBreakFirstHead s '(' := by
  show (⟨(breakFirstL '(' ((pyBreakFirstHead s '(' ++ "(" ++ t).data)).1⟩ : String) = _
  have hd : (pyBreakFirstHead s '(' ++ "(" ++ t).data =
      (breakFirstL '(' s.data).1 ++ '(' :: t.data := by
    simp [pyBreakFirstHead, String.data_append]
  rw [hd, bf_split '(' _ _ (bf_no_sep '(' s.data)]
  rfl

theorem sig_break_head2 (s X : String) :
    pyBreakFirstHead (pyBreakFirstHead s '(' ++ "(" ++ X ++ "):") '(' = pyBreakFirstHead s '(' := by
  have h := sig_break_head s (X ++ "):")
  rwa [← String.append_assoc] at h

/-- Re-running the per-identifier computation on the rewritten signature line
reproduces it: the outcome depends on the line only through the text before
its first `(`, which the rewrite keeps. -/
theorem entryPatch_stable (ip : IpCatalog) (func_id l sig : String) (se : List String)
    (ln : String)
    (h : entryPatch ip func_id l = Except.ok (some (sig, se, ln))) :
    entryPatch ip func_id sig = Except.ok (some (sig, se, ln)) := by
  revert h
  unfold entryPatch
  cases entrySigArgs ip func_id with
  | error e => intro h; exact absurd h (by simp)
  | ok o =>
    cases o with
    | none => intro h; exact absurd h (by simp)
    | some trip =>
      obtain ⟨py_args, searches, line⟩ := trip
      intro h
      simp only [Except.ok.injEq, Option.some.injEq, Prod.mk.injEq] at h
      obtain ⟨hsig, hse, hln⟩ := h
      rw [← hsig, sig_break_head2, hse, hln]

/-! Part D: list splicing and entry lookup lemmas. -/

theorem set_append_left {α : Type} (x : α) :
    ∀ (A B : List α) (n : Nat), n < A.length → (A ++ B).set n x = A.set n x ++ B
  | [], _, n, h => by simp at h
  | a :: A, B, 0, _ => by simp
  | a :: A, B, n + 1, h => by
    simp only [List.cons_append, List.set_cons_succ]
    rw [set_append_left x A B n (by simpa using h)]

theorem insertIdx_append_left {α : Type} (x : α) :
    ∀ (A B : List α) (n : Nat), n ≤ A.length →
      List.insertIdx n x (A ++ B) = List.insertIdx n x A ++ B
  | A, B, 0, _ => by simp [List.insertIdx_zero]
  | [], B, n + 1, h => by simp at h
  | a :: A, B, n + 1, h => by
    simp only [List.cons_append, List.insertIdx_succ_cons]
    rw [insertIdx_append_left x A B n (by simpa using h)]

theorem insertIdx_decomp {α : Type} (x : α) :
    ∀ (n : Nat) (l : List α), n ≤ l.length →
      List.insertIdx n x l = l.take n ++ x :: l.drop n
  | 0, l, _ => by simp [List.insertIdx_zero]
  | n + 1, [], h => by simp at h
  | n + 1, a :: l, h => by
    rw [List.insertIdx_succ_cons, insertIdx_decomp x n l (by simpa using h)]
    simp

theorem set_decomp {α : Type} (x : α) (n : Nat) (l : List α) (h : n < l.length) :
    l.set n x = l.take n ++ x :: l.drop (n + 1) := by
  rw [List.set_eq_take_append_cons_drop, if_pos h]

theorem insert_at_boundary {α : Type} (A B : List α) (x : α) :
    List.insertIdx A.length x (A ++ B) = A ++ x :: B := by
  rw [insertIdx_decomp x A.length (A ++ B) (by simp), List.take_left, List.drop_left]

theorem entryAt_none (fns : List (String × FnEntry)) (p : Nat)
    (h : ∀ q ∈ fns, q.2.idx ≠ p) : entryAt fns p = none :=
  List.find?_eq_none.mpr (fun q hq => by simp [h q hq])

theorem entryAt_nil (p : Nat) : entryAt [] p = none := rfl

theorem entryAt_append_ne (y : String × FnEntry) (p : Nat) (h : y.2.idx ≠ p) :
    ∀ (fns : List (String × FnEntry)), entryAt (fns ++ [y]) p = entryAt fns p
  | [] => by
    show List.find? _ [y] = none
    rw [List.find?_eq_none.mpr]
    intro q hq
    simp only [List.mem_singleton] at hq
    simp [hq, h]
  | a :: fns => by
    show List.find? _ (a :: (fns ++ [y])) = List.find? _ (a :: fns)
    by_cases ha : a.2.idx = p
    · simp [List.find?, ha]
    · have hd : decide (a.2.idx = p) = false := by simp [ha]
      simp only [List.find?, hd]
      exact entryAt_append_ne y p h fns

theorem entryAt_append_self (y : String × FnEntry) :
    ∀ (fns : List (String × FnEntry)), (∀ q ∈ fns, q.2.idx ≠ y.2.idx) →
      entryAt (fns ++ [y]) y.2.idx = some y
  | [], _ => by
    show List.find? _ [y] = some y
    simp [List.find?]
  | a :: fns, h => by
    have ha : decide (a.2.idx = y.2.idx) = false := by
      simp [h a (List.mem_cons_self _ _)]
    show List.find? _ (a :: (fns ++ [y])) = some y
    simp only [List.find?, ha]
    exact entryAt_append_self y fns (fun q hq => h q (List.mem_cons_of_mem _ hq))

theorem entryAt_mem (fns : List (String × FnEntry)) (p : Nat) (q : String × FnEntry)
    (h : entryAt fns p = some q) : q ∈ fns ∧ q.2.idx = p :=
  ⟨List.mem_of_find?_eq_some h, by simpa using List.find?_some h⟩

theorem expandFrom_append (ip : IpCatalog) (b : Bool) (fns : List (String × FnEntry)) :
    ∀ (xs ys : List String) (p : Nat),
      expandFrom ip b fns p (xs ++ ys) =
        expandFrom ip b fns p xs ++ expandFrom ip b fns (p + xs.length) ys
  | [], ys, p => by simp [expandFrom]
  | x :: xs, ys, p => by
    show expandAt ip b fns p x ++ expandFrom ip b fns (p + 1) (xs ++ ys) = _
    rw [expandFrom_append ip b fns xs ys (p + 1)]
    simp only [List.append_assoc, List.length_cons]
    have harith : p + 1 + xs.length = p + (xs.length + 1) := by omega
    rw [harith]
    rw [show expandFrom ip b fns p (x :: xs) = expandAt ip b fns p x ++ expandFrom ip b fns (p + 1) xs from rfl]
    rw [List.append_assoc]

theorem expandFrom_id (ip : IpCatalog) (b : Bool) (fns : List (String × FnEntry)) :
    ∀ (ls : List String) (p : Nat), (∀ q ∈ fns, q.2.idx < p) →
      expandFrom ip b fns p ls = ls
  | [], p, _ => rfl
  | l :: ls, p, h => by
    have hn : entryAt fns p = none := entryAt_none fns p (fun q hq => by
      have := h q hq; omega)
    simp only [expandFrom, expandAt, hn]
    rw [expandFrom_id ip b fns ls (p + 1) (fun q hq => by have := h q hq; omega)]
    rfl

theorem expandFrom_nil_fns (ip : IpCatalog) (b : Bool) :
    ∀ (ls : List String) (p : Nat), expandFrom ip b [] p ls = ls
  | [], _ => rfl
  | l :: ls, p => by
    simp only [expandFrom, expandAt, entryAt_nil]
    rw [expandFrom_nil_fns ip b ls (p + 1)]
    rfl

theorem expandFrom_ext (ip : IpCatalog) (b : Bool) (fns fns2 : List (String × FnEntry)) :
    ∀ (ls : List String) (p : Nat),
      (∀ k l, p ≤ k → k < p + ls.length → expandAt ip b fns k l = expandAt ip b fns2 k l) →
      expandFrom ip b fns p ls = expandFrom ip b fns2 p ls
  | [], _, _ => rfl
  | l :: ls, p, h => by
    simp only [expandFrom]
    rw [h p l (le_refl p) (by simp), expandFrom_ext ip b fns fns2 ls (p + 1)
      (fun k l2 hk hk2 => h k l2 (by omega) (by simp at hk2 ⊢; omega))]

/-- One loop iteration on a list split as `pre ++ suf`, with the entry's index
inside `pre`: the step reads, rewrites and inserts entirely within `pre`. -/
theorem injectOne_split (ip : IpCatalog) (isBase : Bool) (pre suf : List String)
    (c : Nat) (y : String × FnEntry) (hy : y.2.idx < pre.length) :
    injectOne ip isBase (pre ++ suf, c) y =
      match entryPatch ip y.1 ((pre.get? y.2.idx).getD "") with
      | Except.error e => Except.error e
      | Except.ok none => Except.ok (pre ++ suf, c)
      | Except.ok (some (sig, se, ln)) =>
        Except.ok
          ((pre.take y.2.idx ++
              (helpCommentLine y.2.indent se ::
                (if isBase then [spaces y.2.indent ++ "# IDL: " ++ ln] else []) ++ [sig]) ++
              pre.drop (y.2.idx + 1)) ++ suf,
            c + 1) := by
  have hget : ((pre ++ suf).get? y.2.idx) = pre.get? y.2.idx := by
    simp only [List.get?_eq_getElem?]
    exact List.getElem?_append_left hy
  unfold injectOne
  rw [hget]
  cases entryPatch ip y.1 ((pre.get? y.2.idx).getD "") with
  | error e => rfl
  | ok o =>
    cases o with
    | none => rfl
    | some trip =>
      obtain ⟨sig, se, ln⟩ := trip
      simp only
      rw [set_append_left sig pre suf y.2.idx hy]
      rw [set_decomp sig y.2.idx pre hy]
      by_cases hb : isBase = true
      · rw [if_pos hb, if_pos hb]
        set P := pre.take y.2.idx with hP
        set D := pre.drop (y.2.idx + 1) with hD
        have hPl : P.length = y.2.idx := List.length_take_of_le (le_of_lt hy)
        rw [insertIdx_append_left (spaces y.2.indent ++ "# IDL: " ++ ln) (P ++ sig :: D) suf
          y.2.idx (by simp [hPl])]
        rw [show y.2.idx = P.length from hPl.symm]
        rw [insert_at_boundary P (sig :: D) (spaces y.2.indent ++ "# IDL: " ++ ln)]
        rw [insertIdx_append_left (helpCommentLine y.2.indent se)
          (P ++ (spaces y.2.indent ++ "# IDL: " ++ ln) :: sig :: D) suf P.length (by simp)]
        rw [insert_at_boundary P ((spaces y.2.indent ++ "# IDL: " ++ ln) :: sig :: D)
          (helpCommentLine y.2.indent se)]
        simp
      · rw [if_neg hb, if_neg hb]
        set P := pre.take y.2.idx with hP
        set D := pre.drop (y.2.idx + 1) with hD
        have hPl : P.length = y.2.idx := List.length_take_of_le (le_of_lt hy)
        rw [insertIdx_append_left (helpCommentLine y.2.indent se) (P ++ sig :: D) suf
          y.2.idx (by simp [hPl])]
        rw [show y.2.idx = P.length from hPl.symm]
        rw [insert_at_boundary P (sig :: D) (helpCommentLine y.2.indent se)]
        simp

theorem matchedCount_nil (ip : IpCatalog) (ls : List String) : matchedCount ip ls [] = 0 := rfl

theorem matchedCount_append (ip : IpCatalog) (ls : List String)
    (fns : List (String × FnEntry)) (y : String × FnEntry) :
    matchedCount ip ls (fns ++ [y]) =
      matchedCount ip ls fns + (if entryHit ip ls y then 1 else 0) := by
  unfold matchedCount
  rw [List.filter_append]
  by_cases h : entryHit ip ls y = true <;> simp [h]

theorem matchedCount_congr (ip : IpCatalog) (ls ls' : List String)
    (fns : List (String × FnEntry))
    (h : ∀ q ∈ fns, ls.get? q.2.idx = ls'.get? q.2.idx) :
    matchedCount ip ls fns = matchedCount ip ls' fns := by
  unfold matchedCount
  rw [List.filter_congr]
  intro q hq
  unfold entryHit
  rw [h q hq]

/-- The per-identifier outcome's constructor does not depend on the line. -/
theorem entryPatch_ok_none_indep (ip : IpCatalog) (f l l' : String)
    (h : entryPatch ip f l = Except.ok none) : entryPatch ip f l' = Except.ok none := by
  revert h
  unfold entryPatch
  cases entrySigArgs ip f with
  | error e => intro h; exact absurd h (by simp)
  | ok o =>
    cases o with
    | none => intro h; rfl
    | some trip =>
      obtain ⟨a, b, c⟩ := trip
      intro h
      exact absurd h (by simp)

/-- The injection loop over entries with strictly increasing indices inside
`pre`, processed in reverse: when it succeeds it yields the per-line blocks of
`pre` (followed by the untouched `suf`) and counts the matched entries. -/
theorem injectLoop_char (ip : IpCatalog) (isBase : Bool) :
    ∀ (fns : List (String × FnEntry)) (pre suf : List String) (c : Nat)
      (out : List String) (c' : Nat),
      List.Pairwise (fun a b => a.2.idx < b.2.idx) fns →
      (∀ q ∈ fns, q.2.idx < pre.length) →
      fns.reverse.foldlM (injectOne ip isBase) (pre ++ suf, c) = Except.ok (out, c') →
      out = expandFrom ip isBase fns 0 pre ++ suf ∧
        c' = c + matchedCount ip pre fns := by
  intro fns
  induction fns using List.reverseRecOn with
  | nil =>
    intro pre suf c out c' _ _ h
    simp only [List.reverse_nil, List.foldlM_nil] at h
    have h2 : (pre ++ suf, c) = (out, c') := by simpa [pure, Except.pure] using h
    have ho := congrArg Prod.fst h2
    have hc := congrArg Prod.snd h2
    simp only at ho hc
    refine ⟨by rw [← ho, expandFrom_nil_fns], ?_⟩
    rw [matchedCount_nil]
    omega
  | append_singleton fns' y ih =>
    intro pre suf c out c' hpw hbound h
    have hpwa := List.pairwise_append.mp hpw
    have hpw' : List.Pairwise (fun a b => a.2.idx < b.2.idx) fns' := hpwa.1
    have hpwy : ∀ a ∈ fns', a.2.idx < y.2.idx := fun a ha =>
      hpwa.2.2 a ha y (List.mem_singleton.mpr rfl)
    have hyb : y.2.idx < pre.length := hbound y (by simp)
    rw [List.reverse_append] at h
    simp only [List.reverse_singleton, List.singleton_append, List.foldlM_cons] at h
    rw [injectOne_split ip isBase pre suf c y hyb] at h
    cases hep : entryPatch ip y.1 ((pre.get? y.2.idx).getD "") with
    | error e =>
      rw [hep] at h
      exact absurd h (by simp [Bind.bind, Except.bind])
    | ok o =>
      rw [hep] at h
      cases o with
      | none =>
        simp only [Bind.bind, Except.bind] at h
        obtain ⟨ho, hc⟩ := ih pre suf c out c' hpw'
          (fun q hq => hbound q (List.mem_append.mpr (Or.inl hq))) h
        refine ⟨?_, ?_⟩
        · rw [ho]
          congr 1
          refine expandFrom_ext ip isBase fns' (fns' ++ [y]) pre 0 ?_
          intro k l _ _
          by_cases hk : y.2.idx = k
          · subst hk
            unfold expandAt
            rw [entryAt_append_self y fns' (fun q hq => Nat.ne_of_lt (hpwy q hq)),
              entryAt_none fns' y.2.idx (fun q hq => Nat.ne_of_lt (hpwy q hq))]
            simp [entryPatch_ok_none_indep ip y.1 ((pre.get? y.2.idx).getD "") l hep]
          · unfold expandAt
            rw [entryAt_append_ne y k hk]
        · rw [hc, matchedCount_append]
          have hhit : entryHit ip pre y = false := by
            unfold entryHit
            rw [hep]
          rw [hhit]
          simp
      | some trip =>
        obtain ⟨sig, se, ln⟩ := trip
        simp only [Bind.bind, Except.bind] at h
        have hassoc :
            (pre.take y.2.idx ++
               (helpCommentLine y.2.indent se ::
                 (if isBase then [spaces y.2.indent ++ "# IDL: " ++ ln] else []) ++ [sig]) ++
               pre.drop (y.2.idx + 1)) ++ suf =
            pre.take y.2.idx ++
              ((helpCommentLine y.2.indent se ::
                 (if isBase then [spaces y.2.indent ++ "# IDL: " ++ ln] else []) ++ [sig]) ++
                (pre.drop (y.2.idx + 1) ++ suf)) := by
          simp [List.append_assoc]
        rw [hassoc] at h
        have hlen : (pre.take y.2.idx).length = y.2.idx :=
          List.length_take_of_le (le_of_lt hyb)
        obtain ⟨ho, hc⟩ := ih (pre.take y.2.idx)
          ((helpCommentLine y.2.indent se ::
             (if isBase then [spaces y.2.indent ++ "# IDL: " ++ ln] else []) ++ [sig]) ++
            (pre.drop (y.2.idx + 1) ++ suf)) (c + 1) out c' hpw'
          (fun q hq => by rw [hlen]; exact hpwy q hq) h
        have hgetn : pre.get? y.2.idx = some (pre.get ⟨y.2.idx, hyb⟩) := by
          simp [List.get?_eq_get hyb]
        have hdecomp : pre = pre.take y.2.idx ++ pre.get ⟨y.2.idx, hyb⟩ :: pre.drop (y.2.idx + 1) := by
          conv_lhs => rw [← List.take_append_drop y.2.idx pre]
          congr 1
          rw [List.drop_eq_getElem_cons hyb, List.get_eq_getElem]
        have hdecomp2 : pre =
            (pre.take y.2.idx ++ [pre.get ⟨y.2.idx, hyb⟩]) ++ pre.drop (y.2.idx + 1) := by
          rw [List.append_assoc, List.singleton_append]
          exact hdecomp
        refine ⟨?_, ?_⟩
        · rw [ho]
          conv_rhs => rw [hdecomp2]
          rw [expandFrom_append ip isBase (fns' ++ [y]) (pre.take y.2.idx ++ [pre.get ⟨y.2.idx, hyb⟩]) (pre.drop (y.2.idx + 1)) 0]
          rw [expandFrom_append ip isBase (fns' ++ [y]) (pre.take y.2.idx) [pre.get ⟨y.2.idx, hyb⟩] 0]
          have he1 : expandFrom ip isBase (fns' ++ [y]) 0 (pre.take y.2.idx) =
              expandFrom ip isBase fns' 0 (pre.take y.2.idx) := by
            refine expandFrom_ext ip isBase (fns' ++ [y]) fns' (pre.take y.2.idx) 0 ?_
            intro k l hk0 hkb
            rw [hlen] at hkb
            simp only [Nat.zero_add] at hkb
            unfold expandAt
            rw [entryAt_append_ne y k (by omega)]
          have he2 : expandFrom ip isBase (fns' ++ [y]) (0 + (pre.take y.2.idx).length)
              [pre.get ⟨y.2.idx, hyb⟩] =
              helpCommentLine y.2.indent se ::
                (if isBase then [spaces y.2.indent ++ "# IDL: " ++ ln] else []) ++ [sig] := by
            rw [hlen]
            simp only [Nat.zero_add]
            show expandAt ip isBase (fns' ++ [y]) y.2.idx (pre.get ⟨y.2.idx, hyb⟩) ++ [] = _
            rw [List.append_nil]
            unfold expandAt
            rw [entryAt_append_self y fns' (fun q hq => Nat.ne_of_lt (hpwy q hq))]
            rw [hgetn] at hep
            simp only [Option.getD_some] at hep
            rw [List.get_eq_getElem] at hep
            simp [hep]
          have he3 : expandFrom ip isBase (fns' ++ [y])
              (0 + ((pre.take y.2.idx ++ [pre.get ⟨y.2.idx, hyb⟩]).length)) (pre.drop (y.2.idx + 1)) =
              pre.drop (y.2.idx + 1) := by
            refine expandFrom_id ip isBase (fns' ++ [y]) (pre.drop (y.2.idx + 1)) _ ?_
            intro q hq
            simp only [List.length_append, hlen, List.length_singleton]
            rcases List.mem_append.mp hq with hq' | hq'
            · have := hpwy q hq'
              omega
            · simp only [List.mem_singleton] at hq'
              subst hq'
              omega
          rw [he1, he2, he3]
          simp [List.append_assoc]
        · rw [hc, matchedCount_append]
          have hhit : entryHit ip pre y = true := by
            unfold entryHit
            rw [hep]
          rw [hhit]
          have hmc : matchedCount ip (pre.take y.2.idx) fns' = matchedCount ip pre fns' := by
            refine matchedCount_congr ip (pre.take y.2.idx) pre fns' ?_
            intro q hq
            have hlt := hpwy q hq
            simp [List.get?_eq_getElem?, List.getElem?_take, hlt]
          rw [hmc]
          simp
          omega

/-- Whitespace-only lists are dropped fully. -/
theorem dropWhile_ws_append (p : Char → Bool) :
    ∀ (A B : List Char), (∀ a ∈ A, p a = true) → (A ++ B).dropWhile p = B.dropWhile p
  | [], B, _ => rfl
  | a :: A, B, h => by
    rw [List.cons_append, List.dropWhile_cons, if_pos (h a (List.mem_cons_self _ _))]
    exact dropWhile_ws_append p A B (fun x hx => h x (List.mem_cons_of_mem _ hx))

/-- Dropping nothing when the head does not satisfy the predicate. -/
theorem dropWhile_cons_neg (p : Char → Bool) (c : Char) (l : List Char) (h : p c = false) :
    (c :: l).dropWhile p = c :: l := by
  rw [List.dropWhile_cons, if_neg (by simp [h])]

/-- The head of what dropWhile keeps fails the predicate. -/
theorem dropWhile_head_neg (p : Char → Bool) :
    ∀ (l : List Char) (c : Char) (r : List Char), l.dropWhile p = c :: r → p c = false
  | [], c, r, h => by simp at h
  | a :: l, c, r, h => by
    by_cases ha : p a = true
    · rw [List.dropWhile_cons, if_pos ha] at h
      exact dropWhile_head_neg p l c r h
    · rw [List.dropWhile_cons, if_neg ha] at h
      obtain ⟨h1, _⟩ := List.cons.inj h
      simp only [Bool.not_eq_true] at ha
      rw [← h1]
      exact ha

/-- A prefix avoiding the separator survives keeping only the part before the
first separator and appending anything. -/
theorem prefix_through_bf (sep : Char) :
    ∀ (p r z : List Char), (∀ c ∈ p, c ≠ sep) → p.isPrefixOf r = true →
      p.isPrefixOf ((breakFirstL sep r).1 ++ z) = true
  | [], _, _, _, _ => by simp [List.isPrefixOf]
  | c :: p', [], z, hs, hp => by simp [List.isPrefixOf] at hp
  | c :: p', c0 :: r', z, hs, hp => by
    simp only [List.isPrefixOf, Bool.and_eq_true, beq_iff_eq] at hp
    obtain ⟨hc, hp'⟩ := hp
    subst hc
    rw [breakFirstL, if_neg (hs c (List.mem_cons_self _ _))]
    simp only [List.cons_append, List.isPrefixOf, Bool.and_eq_true, beq_iff_eq]
    exact ⟨trivial, prefix_through_bf sep p' r' z
      (fun x hx => hs x (List.mem_cons_of_mem _ hx)) hp'⟩

/-- Structure of a def line: leading whitespace, then the stripped rest
starting with `def ` or `async def`. -/
theorem defLine_decomp (l : String) (hdef : isDefLine l = true) :
    ∃ (w r : List Char),
      l.data = w ++ r ∧ (∀ x ∈ w, x.isWhitespace = true) ∧ (pyLstrip l).data = r ∧
      (("def ".data.isPrefixOf r = true) ∨ ("async def".data.isPrefixOf r = true)) := by
  refine ⟨l.data.takeWhile Char.isWhitespace, l.data.dropWhile Char.isWhitespace,
    (List.takeWhile_append_dropWhile Char.isWhitespace l.data).symm,
    fun x hx => List.mem_takeWhile_imp hx, rfl, ?_⟩
  unfold isDefLine strStarts at hdef
  simpa [pyLstrip] using Bool.or_eq_true_iff.mp hdef

/-- A string whose first character differs from the pattern's first character
does not start with the pattern. -/
theorem strStarts_false_head (s p : String) (c c' : Char) (y z : List Char)
    (hsd : s.data = c :: y) (hpd : p.data = c' :: z) (hne : c' ≠ c) :
    strStarts s p = false := by
  unfold strStarts
  rw [hsd, hpd]
  simp [List.isPrefixOf, hne]

/-- A string starting with the pattern starts with its first character. -/
theorem strStarts_head (s p : String) (c : Char) (z : List Char)
    (hs : strStarts s p = true) (hpd : p.data = c :: z) : ∃ y, s.data = c :: y := by
  unfold strStarts at hs
  rw [hpd] at hs
  cases hsd : s.data with
  | nil => rw [hsd] at hs; simp [List.isPrefixOf] at hs
  | cons c0 y =>
    rw [hsd] at hs
    simp only [List.isPrefixOf, Bool.and_eq_true, beq_iff_eq] at hs
    exact ⟨y, by rw [hs.1]⟩

/-- Right-stripping a text ending in `):` changes nothing. -/
theorem pyRstrip_colon (y : String) : pyRstrip (y ++ "):") = y ++ "):" := by
  unfold pyRstrip
  have hd : (y ++ "):").data = y.data ++ [')', ':'] := by
    simp [String.data_append]
  rw [hd, List.reverse_append]
  have hrev : (([')', ':'] : List Char).reverse) ++ y.data.reverse = ':' :: ')' :: y.data.reverse := rfl
  rw [hrev]
  rw [dropWhile_cons_neg Char.isWhitespace ':' _ (by decide)]
  refine String.ext ?_
  show (':' :: ')' :: y.data.reverse).reverse = (y ++ "):").data
  rw [hd]
  simp

/-- Facts about a rewritten signature line `pyline.split("(")[0] + "(" + X + "):"`
of a def line, and about the def line itself: the rewrite preserves every
feature the scanner inspects, is not a marker line, and is right-stripped. -/
theorem sig_facts (l X : String) (hdef : isDefLine l = true) :
    isDefLine (pyBreakFirstHead l '(' ++ "(" ++ X ++ "):") = true ∧
    indentOf (pyBreakFirstHead l '(' ++ "(" ++ X ++ "):") = indentOf l ∧
    defNameOf (pyBreakFirstHead l '(' ++ "(" ++ X ++ "):") = defNameOf l ∧
    strStarts (pyBreakFirstHead l '(' ++ "(" ++ X ++ "):") "class " = false ∧
    strStarts l "class " = false ∧
    strStarts (pyLstrip (pyBreakFirstHead l '(' ++ "(" ++ X ++ "):")) "@property" = false ∧
    strStarts (pyLstrip l) "@property" = false ∧
    isMarkerLine (pyBreakFirstHead l '(' ++ "(" ++ X ++ "):") = false ∧
    pyRstrip (pyBreakFirstHead l '(' ++ "(" ++ X ++ "):") = pyBreakFirstHead l '(' ++ "(" ++ X ++ "):" := by
  obtain ⟨w, r, hl, hw, hr, hpre⟩ := defLine_decomp l hdef
  have hhead : ∃ c r0, r = c :: r0 ∧ (c = 'd' ∨ c = 'a') := by
    rcases hpre with hp | hp
    · cases r with
      | nil => simp [List.isPrefixOf] at hp
      | cons c r0 =>
        refine ⟨c, r0, rfl, Or.inl ?_⟩
        rw [show ("def ".data) = 'd' :: ['e', 'f', ' '] from rfl] at hp
        simp only [List.isPrefixOf, Bool.and_eq_true, beq_iff_eq] at hp
        exact hp.1.symm
    · cases r with
      | nil => simp [List.isPrefixOf] at hp
      | cons c r0 =>
        refine ⟨c, r0, rfl, Or.inr ?_⟩
        rw [show ("async def".data) = 'a' :: ['s', 'y', 'n', 'c', ' ', 'd', 'e', 'f'] from rfl] at hp
        simp only [List.isPrefixOf, Bool.and_eq_true, beq_iff_eq] at hp
        exact hp.1.symm
  obtain ⟨c, r0, hr0, hc⟩ := hhead
  have hwne : ∀ x ∈ w, x ≠ '(' := by
    intro x hx he
    have hxw := hw x hx
    rw [he] at hxw
    exact absurd hxw (by decide)
  have hcne : c ≠ '(' := by rcases hc with h | h <;> (rw [h]; decide)
  have hcws : c.isWhitespace = false := by rcases hc with h | h <;> (rw [h]; decide)
  have hld : l.data = w ++ c :: r0 := by rw [hl, hr0]
  have hbfr : (breakFirstL '(' r).1 = c :: (breakFirstL '(' r0).1 := by
    rw [hr0, breakFirstL, if_neg hcne]
  have hB : (breakFirstL '(' l.data).1 = w ++ c :: (breakFirstL '(' r0).1 := by
    rw [hl, bf_append '(' w r hwne]
    show w ++ (breakFirstL '(' r).1 = _
    rw [hbfr]
  have hsd : (pyBreakFirstHead l '(' ++ "(" ++ X ++ "):").data
      = w ++ c :: ((breakFirstL '(' r0).1 ++ '(' :: (X ++ "):").data) := by
    have h1 : (pyBreakFirstHead l '(' ++ "(" ++ X ++ "):").data
        = (breakFirstL '(' l.data).1 ++ '(' :: (X ++ "):").data := by
      simp [pyBreakFirstHead, String.data_append]
    rw [h1, hB]
    simp
  have hlstrip : (pyLstrip (pyBreakFirstHead l '(' ++ "(" ++ X ++ "):")).data
      = c :: ((breakFirstL '(' r0).1 ++ '(' :: (X ++ "):").data) := by
    show ((pyBreakFirstHead l '(' ++ "(" ++ X ++ "):").data).dropWhile Char.isWhitespace = _
    rw [hsd, dropWhile_ws_append Char.isWhitespace w _ hw,
      dropWhile_cons_neg Char.isWhitespace c _ hcws]
  have hlstrip2 : (pyLstrip (pyBreakFirstHead l '(' ++ "(" ++ X ++ "):")).data
      = (breakFirstL '(' r).1 ++ '(' :: (X ++ "):").data := by
    rw [hlstrip, hbfr]
    rfl
  refine ⟨?_, ?_, ?_, ?_, ?_, ?_, ?_, ?_, ?_⟩
  · unfold isDefLine strStarts
    rcases hpre with hp | hp
    · refine Bool.or_eq_true_iff.mpr (Or.inl ?_)
      rw [hlstrip2]
      exact prefix_through_bf '(' "def ".data r ('(' :: (X ++ "):").data) (by decide) hp
    · refine Bool.or_eq_true_iff.mpr (Or.inr ?_)
      rw [hlstrip2]
      exact prefix_through_bf '(' "async def".data r ('(' :: (X ++ "):").data) (by decide) hp
  · unfold indentOf
    rw [hsd, hlstrip, hl, hr]
    simp only [List.length_append, List.length_cons]
    omega
  · unfold defNameOf
    rw [sig_break_head2]
  · cases w with
    | nil =>
      refine strStarts_false_head _ _ c 'c' _ _ (by rw [hsd]; rfl) rfl ?_
      rcases hc with h | h <;> (rw [h]; decide)
    | cons x w' =>
      refine strStarts_false_head _ _ x 'c' _ _ (by rw [hsd]; rfl) rfl ?_
      intro he
      have hxw := hw x (List.mem_cons_self _ _)
      rw [← he] at hxw
      exact absurd hxw (by decide)
  · cases w with
    | nil =>
      refine strStarts_false_head _ _ c 'c' _ _ (by rw [hld]; rfl) rfl ?_
      rcases hc with h | h <;> (rw [h]; decide)
    | cons x w' =>
      refine strStarts_false_head _ _ x 'c' _ _ (by rw [hld]; rfl) rfl ?_
      intro he
      have hxw := hw x (List.mem_cons_self _ _)
      rw [← he] at hxw
      exact absurd hxw (by decide)
  · refine strStarts_false_head _ _ c '@' _ _ hlstrip rfl ?_
    rcases hc with h | h <;> (rw [h]; decide)
  · refine strStarts_false_head _ _ c '@' _ _ (by rw [hr, hr0]) rfl ?_
    rcases hc with h | h <;> (rw [h]; decide)
  · unfold isMarkerLine
    rw [strStarts_false_head _ _ c '#' _ _ hlstrip rfl
        (by rcases hc with h | h <;> (rw [h]; decide)),
      strStarts_false_head _ _ c '#' _ _ hlstrip rfl
        (by rcases hc with h | h <;> (rw [h]; decide))]
    rfl
  · exact pyRstrip_colon (pyBreakFirstHead l '(' ++ "(" ++ X)

/-- Head of a dropWhile result fails the predicate. -/
theorem dropWhile_head_false {α : Type} (p : α → Bool) :
    ∀ (l : List α) (c : α) (t : List α), l.dropWhile p = c :: t → p c = false := by
  intro l
  induction l with
  | nil => intro c t h; exact absurd h (by simp)
  | cons a l ih =>
    intro c t h
    rw [List.dropWhile_cons] at h
    by_cases hp : p a = true
    · rw [if_pos hp] at h; exact ih c t h
    · rw [if_neg hp] at h
      obtain ⟨h1, _⟩ := List.cons.inj h
      rw [← h1]; exact Bool.eq_false_iff.mpr hp

/-- Right-stripping is idempotent. -/
theorem pyRstrip_idem (s : String) : pyRstrip (pyRstrip s) = pyRstrip s := by
  unfold pyRstrip
  refine String.ext ?_
  show ((((s.data.reverse.dropWhile Char.isWhitespace).reverse).reverse.dropWhile
    Char.isWhitespace).reverse : List Char) = _
  rw [List.reverse_reverse]
  congr 1
  cases hd : s.data.reverse.dropWhile Char.isWhitespace with
  | nil => rfl
  | cons c t =>
    rw [List.dropWhile_cons, if_neg]
    rw [dropWhile_head_false Char.isWhitespace s.data.reverse c t hd]
    simp

/-- The right-stripped text is a prefix of the text. -/
theorem pyRstrip_prefix (s : String) : (pyRstrip s).data <+: s.data := by
  show ((s.data.reverse.dropWhile Char.isWhitespace).reverse : List Char) <+: s.data
  have h1 : s.data.reverse.dropWhile Char.isWhitespace <:+ s.data.reverse :=
    List.dropWhile_suffix Char.isWhitespace
  have h2 := List.reverse_prefix.mpr h1
  rwa [List.reverse_reverse] at h2

/-- A prefix of the left-stripped rstripped line is a prefix of the
left-stripped line. -/
theorem strStarts_lstrip_of_rstrip (l p : String)
    (h : strStarts (pyLstrip (pyRstrip l)) p = true) :
    strStarts (pyLstrip l) p = true := by
  obtain ⟨t, ht⟩ := pyRstrip_prefix l
  unfold strStarts pyLstrip at h ⊢
  rw [List.isPrefixOf_iff_prefix] at h ⊢
  rw [← ht, List.dropWhile_append]
  show p.data <+: (if ((pyRstrip l).data.dropWhile Char.isWhitespace).isEmpty = true
    then t.dropWhile Char.isWhitespace
    else (pyRstrip l).data.dropWhile Char.isWhitespace ++ t)
  by_cases he : ((pyRstrip l).data.dropWhile Char.isWhitespace).isEmpty = true
  · rw [if_pos he]
    simp only [List.isEmpty_iff] at he
    have hp : p.data <+: ([] : List Char) := by
      have := h; rw [show ({ data := (pyRstrip l).data.dropWhile Char.isWhitespace } :
        String).data = (pyRstrip l).data.dropWhile Char.isWhitespace from rfl, he] at this
      exact this
    rw [List.prefix_nil.mp hp]
    exact List.nil_prefix
  · rw [if_neg he]
    exact List.IsPrefix.trans h (List.prefix_append _ t)

/-- Right-stripping never creates a marker line. -/
theorem isMarkerLine_rstrip (l : String) (h : isMarkerLine l = false) :
    isMarkerLine (pyRstrip l) = false := by
  unfold isMarkerLine at h ⊢
  rw [Bool.or_eq_false_iff] at h ⊢
  refine ⟨?_, ?_⟩
  · rw [Bool.eq_false_iff]
    intro hc
    rw [strStarts_lstrip_of_rstrip l _ hc] at h
    exact Bool.true_eq_false.mp h.1
  · rw [Bool.eq_false_iff]
    intro hc
    rw [strStarts_lstrip_of_rstrip l _ hc] at h
    exact Bool.true_eq_false.mp h.2

/-- Every prepared line is marker-free. -/
theorem prepLines_marker_free (txt : String) :
    ∀ l ∈ prepLines txt, isMarkerLine l = false := by
  intro l hl
  unfold prepLines at hl
  rw [List.mem_append] at hl
  cases hl with
  | inl hm =>
    obtain ⟨x, hx, hxl⟩ := List.mem_map.mp hm
    obtain ⟨_, hnm⟩ := List.mem_filter.mp hx
    rw [← hxl]
    exact isMarkerLine_rstrip x (by simpa using hnm)
  | inr hm =>
    rw [List.mem_singleton.mp hm]
    decide

/-- Every prepared line is already right-stripped. -/
theorem prepLines_rstripped (txt : String) :
    ∀ l ∈ prepLines txt, pyRstrip l = l := by
  intro l hl
  unfold prepLines at hl
  rw [List.mem_append] at hl
  cases hl with
  | inl hm =>
    obtain ⟨x, _, hxl⟩ := List.mem_map.mp hm
    rw [← hxl]
    exact pyRstrip_idem x
  | inr hm =>
    rw [List.mem_singleton.mp hm]
    decide

/-- The prepared list ends with an empty line. -/
theorem prepLines_last (txt : String) : (prepLines txt).getLast? = some "" := by
  unfold prepLines
  exact List.getLast?_concat _

/-- Membership after a dict insertion: the element was present before or is
the inserted pair. -/
theorem dictInsert_mem {α : Type} (d : List (String × α)) (k : String) (v : α)
    (q : String × α) (h : q ∈ dictInsert d k v) : q ∈ d ∨ q = (k, v) := by
  unfold dictInsert at h
  by_cases hs : (List.lookup k d).isSome = true
  · rw [if_pos hs] at h
    obtain ⟨p, hp, hpq⟩ := List.mem_map.mp h
    by_cases hk : p.1 = k
    · right; rw [← hpq, if_pos hk]
    · left; rw [← hpq, if_neg hk]; exact hp
  · rw [if_neg hs, List.mem_append] at h
    cases h with
    | inl h => exact Or.inl h
    | inr h => exact Or.inr (List.mem_singleton.mp h)

/-- Invariant of the scan loop: every recorded entry points at an in-range
line index holding a function declaration header. -/
theorem scanAux_mem_facts (all : List String) :
    ∀ (rest : List String) (i : Nat) (cc : Option String)
      (acc fns : List (String × FnEntry)),
      rest = all.drop i →
      (∀ q ∈ acc, q.2.idx < all.length ∧
        isDefLine (((all.get? q.2.idx).getD "")) = true) →
      scanAux all i rest cc acc = Except.ok fns →
      (∀ q ∈ fns, q.2.idx < all.length ∧
        isDefLine (((all.get? q.2.idx).getD "")) = true) := by
  intro rest
  induction rest with
  | nil =>
    intro i cc acc fns _ hacc hrun
    have : acc = fns := by
      have := hrun
      unfold scanAux at this
      exact Except.ok.inj this
    rw [← this]; exact hacc
  | cons l rest ih =>
    intro i cc acc fns hdrop hacc hrun
    have hget : all.get? i = some l := by
      have h0 : (all.drop i).get? 0 = some l := by rw [← hdrop]; rfl
      rw [List.get?_drop] at h0
      simpa using h0
    have hrest : rest = all.drop (i + 1) := by
      have : (all.drop i).tail = all.drop (i + 1) := by
        rw [List.tail_drop]
      rw [← hdrop] at this
      simpa using this
    have hlt : i < all.length := by
      rcases List.get?_eq_some.mp hget with ⟨hl, _⟩
      exact hl
    unfold scanAux at hrun
    by_cases hdef : isDefLine l = true
    · rw [if_pos hdef] at hrun
      by_cases hu : strStarts (defNameOf l) "_" = true
      · rw [if_pos hu] at hrun
        exact ih (i + 1) _ acc fns hrest hacc hrun
      · rw [if_neg hu] at hrun
        by_cases hprop : strStarts (pyLstrip (prevLine all i)) "@property" = true
        · rw [if_pos hprop] at hrun
          exact ih (i + 1) _ acc fns hrest hacc hrun
        · rw [if_neg hprop] at hrun
          cases hq : (if indentOf l ≠ 0 then
              (if strStarts l "class " then some (classNameOf l) else cc).map
                (fun c => c ++ "." ++ defNameOf l)
            else some (defNameOf l)) with
          | none => rw [hq] at hrun; exact absurd hrun (by simp)
          | some funcname =>
            rw [hq] at hrun
            refine ih (i + 1) _ _ fns hrest ?_ hrun
            intro q hqmem
            cases dictInsert_mem _ _ _ q hqmem with
            | inl h => exact hacc q h
            | inr h =>
              rw [h]
              refine ⟨hlt, ?_⟩
              rw [hget]
              exact hdef
    · rw [if_neg hdef] at hrun
      exact ih (i + 1) _ acc fns hrest hacc hrun

/-- Every entry detected by the scan points at an in-range declaration line. -/
theorem scanFns_mem_facts (all : List String) (fns : List (String × FnEntry))
    (h : scanFns all = Except.ok fns) :
    ∀ q ∈ fns, q.2.idx < all.length ∧
      isDefLine (((all.get? q.2.idx).getD "")) = true := by
  exact scanAux_mem_facts all all 0 none [] fns (by simp) (by intro q hq; cases hq) h

/-- The injected help comment is a marker line. -/
theorem marker_help (n : Nat) (se : List String) :
    isMarkerLine (helpCommentLine n se) = true := by
  unfold isMarkerLine
  rw [Bool.or_eq_true_iff]
  right
  unfold strStarts pyLstrip helpCommentLine spaces
  show ("# wgpu.help(".data.isPrefixOf
    ((((⟨List.replicate n ' '⟩ : String) ++ "# wgpu.help(" ++
      joinCommaSp (se.map (fun x => "'" ++ x ++ "'")) ++ ", dev=True)").data).dropWhile
      Char.isWhitespace) : Bool) = true
  have hd : ((⟨List.replicate n ' '⟩ : String) ++ "# wgpu.help(" ++
      joinCommaSp (se.map (fun x => "'" ++ x ++ "'")) ++ ", dev=True)").data =
      List.replicate n ' ' ++ ("# wgpu.help(".data ++
        ((joinCommaSp (se.map (fun x => "'" ++ x ++ "'"))).data ++ ", dev=True)".data)) := by
    simp [String.data_append]
  rw [hd, dropWhile_ws_append Char.isWhitespace _ _
    (fun a ha => by rw [List.eq_of_mem_replicate ha]; decide)]
  have hcons : "# wgpu.help(".data ++
      ((joinCommaSp (se.map (fun x => "'" ++ x ++ "'"))).data ++ ", dev=True)".data) =
      '#' :: (" wgpu.help(".data ++
        ((joinCommaSp (se.map (fun x => "'" ++ x ++ "'"))).data ++ ", dev=True)".data)) := rfl
  rw [hcons, dropWhile_cons_neg Char.isWhitespace _ _ (by decide), ← hcons]
  rw [List.isPrefixOf_iff_prefix]
  exact List.prefix_append _ _

/-- The injected IDL echo is a marker line. -/
theorem marker_idl (n : Nat) (ln : String) :
    isMarkerLine (spaces n ++ "# IDL: " ++ ln) = true := by
  unfold isMarkerLine
  rw [Bool.or_eq_true_iff]
  left
  unfold strStarts pyLstrip spaces
  show ("# IDL: ".data.isPrefixOf
    ((((⟨List.replicate n ' '⟩ : String) ++ "# IDL: " ++ ln).data).dropWhile
      Char.isWhitespace) : Bool) = true
  have hd : ((⟨List.replicate n ' '⟩ : String) ++ "# IDL: " ++ ln).data =
      List.replicate n ' ' ++ ("# IDL: ".data ++ ln.data) := by
    simp [String.data_append]
  rw [hd, dropWhile_ws_append Char.isWhitespace _ _
    (fun a ha => by rw [List.eq_of_mem_replicate ha]; decide)]
  have hcons : "# IDL: ".data ++ ln.data = '#' :: (" IDL: ".data ++ ln.data) := rfl
  rw [hcons, dropWhile_cons_neg Char.isWhitespace _ _ (by decide), ← hcons]
  rw [List.isPrefixOf_iff_prefix]
  exact List.prefix_append _ _

/-- Shape of a successful patch: the rewritten line keeps the original text
before the first parenthesis. -/
theorem entryPatch_shape (ip : IpCatalog) (f l sig : String) (se : List String) (ln : String)
    (h : entryPatch ip f l = Except.ok (some (sig, se, ln))) :
    ∃ X, sig = pyBreakFirstHead l '(' ++ "(" ++ X ++ "):" := by
  revert h
  unfold entryPatch
  cases entrySigArgs ip f with
  | error e => intro h; exact absurd h (by simp)
  | ok o =>
    cases o with
    | none => intro h; exact absurd h (by simp)
    | some trip =>
      obtain ⟨py_args, searches, line⟩ := trip
      intro h
      simp only [Except.ok.injEq, Option.some.injEq, Prod.mk.injEq] at h
      exact ⟨joinCommaSp py_args, h.1.symm⟩

/-- Stripping the markers out of one injected block and right-stripping what
remains leaves exactly the in-place rewritten line. -/
theorem block_strip (ip : IpCatalog) (isBase : Bool) (fns : List (String × FnEntry))
    (p : Nat) (l : String) (hm : isMarkerLine l = false) (hr : pyRstrip l = l)
    (hdef : ∀ q, entryAt fns p = some q → isDefLine l = true) :
    ((expandAt ip isBase fns p l).filter (fun x => !isMarkerLine x)).map pyRstrip
      = [rewriteAt ip fns p l] := by
  unfold expandAt rewriteAt
  cases hat : entryAt fns p with
  | none => simp [hm, hr]
  | some q =>
    obtain ⟨fid, e⟩ := q
    cases hep : entryPatch ip fid l with
    | error err => simp [hep, hm, hr]
    | ok o =>
      cases o with
      | none => simp [hep, hm, hr]
      | some trip =>
        obtain ⟨sig, se, ln⟩ := trip
        obtain ⟨X, hX⟩ := entryPatch_shape ip fid l sig se ln hep
        have hdl : isDefLine l = true := hdef (fid, e) hat
        have hfacts := sig_facts l X hdl
        have hmsig : isMarkerLine sig = false := by rw [hX]; exact hfacts.2.2.2.2.2.2.2.1
        have hrsig : pyRstrip sig = sig := by rw [hX]; exact hfacts.2.2.2.2.2.2.2.2
        cases isBase with
        | true => simp [hep, marker_help, marker_idl, hmsig, hrsig]
        | false => simp [hep, marker_help, hmsig, hrsig]

/-- Stripping markers and right-stripping the expanded line list yields the
in-place rewritten line list. -/
theorem stripMap_expand (ip : IpCatalog) (isBase : Bool) (fns : List (String × FnEntry)) :
    ∀ (ls : List String) (p : Nat),
      (∀ l ∈ ls, isMarkerLine l = false) →
      (∀ l ∈ ls, pyRstrip l = l) →
      (∀ (j : Nat) (q : String × FnEntry), entryAt fns (p + j) = some q →
        isDefLine ((ls.get? j).getD "") = true) →
      ((expandFrom ip isBase fns p ls).filter (fun x => !isMarkerLine x)).map pyRstrip
        = rewriteFrom ip fns p ls
  | [], p, _, _, _ => rfl
  | l :: rest, p, hm, hr, hdef => by
    show ((((expandAt ip isBase fns p l) ++ expandFrom ip isBase fns (p + 1) rest).filter
      (fun x => !isMarkerLine x)).map pyRstrip : List String) =
      rewriteAt ip fns p l :: rewriteFrom ip fns (p + 1) rest
    rw [List.filter_append, List.map_append]
    rw [block_strip ip isBase fns p l (hm l (List.mem_cons_self _ _))
      (hr l (List.mem_cons_self _ _))
      (fun q hq => by
        have := hdef 0 q (by simpa using hq)
        simpa using this)]
    rw [stripMap_expand ip isBase fns rest (p + 1)
      (fun x hx => hm x (List.mem_cons_of_mem _ hx))
      (fun x hx => hr x (List.mem_cons_of_mem _ hx))
      (fun j q hq => by
        have := hdef (j + 1) q (by
          have harith : p + (j + 1) = p + 1 + j := by omega
          rwa [harith])
        simpa using this)]
    rfl

/-- In-place rewriting keeps the number of lines. -/
theorem rewriteFrom_length (ip : IpCatalog) (fns : List (String × FnEntry)) :
    ∀ (ls : List String) (p : Nat), (rewriteFrom ip fns p ls).length = ls.length
  | [], _ => rfl
  | _ :: rest, p => by
    show (rewriteFrom ip fns (p + 1) rest).length + 1 = rest.length + 1
    rw [rewriteFrom_length ip fns rest (p + 1)]

/-- Element of the in-place rewritten line list. -/
theorem rewriteFrom_get (ip : IpCatalog) (fns : List (String × FnEntry)) :
    ∀ (ls : List String) (p k : Nat),
      (rewriteFrom ip fns p ls).get? k = (ls.get? k).map (rewriteAt ip fns (p + k))
  | [], _, _ => by simp [rewriteFrom]
  | l :: rest, p, 0 => by simp [rewriteFrom]
  | l :: rest, p, k + 1 => by
    show (rewriteFrom ip fns (p + 1) rest).get? k = (rest.get? k).map (rewriteAt ip fns (p + (k + 1)))
    rw [rewriteFrom_get ip fns rest (p + 1) k]
    have : p + 1 + k = p + (k + 1) := by omega
    rw [this]

/-- Rewriting an already rewritten line changes nothing under expansion. -/
theorem expandAt_rewriteAt (ip : IpCatalog) (isBase : Bool) (fns : List (String × FnEntry))
    (p : Nat) (l : String) :
    expandAt ip isBase fns p (rewriteAt ip fns p l) = expandAt ip isBase fns p l := by
  unfold rewriteAt
  cases hat : entryAt fns p with
  | none => rfl
  | some q =>
    obtain ⟨fid, e⟩ := q
    cases hep : entryPatch ip fid l with
    | error err => simp [hep]
    | ok o =>
      cases o with
      | none => simp [hep]
      | some trip =>
        obtain ⟨sig, se, ln⟩ := trip
        simp only [hep]
        unfold expandAt
        rw [hat]
        dsimp only
        rw [entryPatch_stable ip fid l sig se ln hep, hep]

/-- Expanding the rewritten lines reproduces the expansion of the originals. -/
theorem expandFrom_rewriteFrom (ip : IpCatalog) (isBase : Bool) (fns : List (String × FnEntry)) :
    ∀ (ls : List String) (p : Nat),
      expandFrom ip isBase fns p (rewriteFrom ip fns p ls) = expandFrom ip isBase fns p ls
  | [], _ => rfl
  | l :: rest, p => by
    show expandAt ip isBase fns p (rewriteAt ip fns p l) ++
        expandFrom ip isBase fns (p + 1) (rewriteFrom ip fns (p + 1) rest) =
      expandAt ip isBase fns p l ++ expandFrom ip isBase fns (p + 1) rest
    rw [expandAt_rewriteAt, expandFrom_rewriteFrom ip isBase fns rest (p + 1)]

/-- With pairwise distinct line indices, each entry owns its own index. -/
theorem entryAt_unique :
    ∀ (fns : List (String × FnEntry)), List.Pairwise (fun a b => a.2.idx < b.2.idx) fns →
      ∀ q ∈ fns, entryAt fns q.2.idx = some q
  | [], _, q, hq => absurd hq (List.not_mem_nil q)
  | a :: fns, hp, q, hq => by
    rcases List.mem_cons.mp hq with h | h
    · subst h
      show List.find? _ (q :: fns) = some q
      rw [List.find?_cons_of_pos _ (by simp)]
    · have hne : a.2.idx ≠ q.2.idx := by
        have := (List.pairwise_cons.mp hp).1 q h
        omega
      show List.find? _ (a :: fns) = some q
      rw [List.find?_cons_of_neg _ (by simpa using hne)]
      exact entryAt_unique fns (List.pairwise_cons.mp hp).2 q h

/-- Each entry hits on the rewritten lines exactly as on the originals. -/
theorem entryHit_rewrite (ip : IpCatalog) (fns : List (String × FnEntry))
    (hp : List.Pairwise (fun a b => a.2.idx < b.2.idx) fns)
    (ls : List String) (suf : List String)
    (hlen : ∀ q ∈ fns, q.2.idx < ls.length) :
    ∀ q ∈ fns, entryHit ip (rewriteFrom ip fns 0 ls ++ suf) q = entryHit ip ls q := by
  intro q hq
  have hq1 : (rewriteFrom ip fns 0 ls ++ suf).get? q.2.idx =
      (rewriteFrom ip fns 0 ls).get? q.2.idx := by
    simp only [List.get?_eq_getElem?]
    apply List.getElem?_append_left
    rw [rewriteFrom_length]
    exact hlen q hq
  have hq2 : (rewriteFrom ip fns 0 ls).get? q.2.idx =
      (ls.get? q.2.idx).map (rewriteAt ip fns q.2.idx) := by
    have := rewriteFrom_get ip fns ls 0 q.2.idx
    simpa using this
  set l : String := ls.get ⟨q.2.idx, hlen q hq⟩ with hldef
  have hl : ls.get? q.2.idx = some l := List.get?_eq_get _
  unfold entryHit
  rw [hq1, hq2, hl]
  show (match entryPatch ip q.1 (rewriteAt ip fns q.2.idx l) with
    | Except.ok (some _) => true | _ => false) =
    (match entryPatch ip q.1 l with
    | Except.ok (some _) => true | _ => false)
  have hown := entryAt_unique fns hp q hq
  unfold rewriteAt
  rw [hown]
  obtain ⟨fid, e⟩ := q
  dsimp only
  cases hep : entryPatch ip fid l with
  | error err => simp [hep]
  | ok o =>
    cases o with
    | none => simp [hep]
    | some trip =>
      obtain ⟨sig, se, ln⟩ := trip
      dsimp only
      rw [entryPatch_stable ip fid l sig se ln hep]

/-- The match count is stable under in-place rewriting. -/
theorem matchedCount_rewrite (ip : IpCatalog) (fns : List (String × FnEntry))
    (hp : List.Pairwise (fun a b => a.2.idx < b.2.idx) fns)
    (ls : List String) (suf : List String)
    (hlen : ∀ q ∈ fns, q.2.idx < ls.length) :
    matchedCount ip (rewriteFrom ip fns 0 ls ++ suf) fns = matchedCount ip ls fns := by
  unfold matchedCount
  congr 1
  apply List.filter_congr
  intro q hq
  exact entryHit_rewrite ip fns hp ls suf hlen q hq

/-- In-place rewriting never changes whether a line is an `@property`
decorator. -/
theorem rewriteAt_flag (ip : IpCatalog) (fns : List (String × FnEntry)) (j : Nat) (l : String)
    (hdl : ∀ q, entryAt fns j = some q → isDefLine l = true) :
    strStarts (pyLstrip (rewriteAt ip fns j l)) "@property" =
      strStarts (pyLstrip l) "@property" := by
  unfold rewriteAt
  cases hat : entryAt fns j with
  | none => rfl
  | some q =>
    obtain ⟨fid, e⟩ := q
    dsimp only
    cases hep : entryPatch ip fid l with
    | error err => rfl
    | ok o =>
      cases o with
      | none => rfl
      | some trip =>
        obtain ⟨sig, se, ln⟩ := trip
        dsimp only
        obtain ⟨X, hX⟩ := entryPatch_shape ip fid l sig se ln hep
        have hfacts := sig_facts l X (hdl (fid, e) hat)
        rw [hX, hfacts.2.2.2.2.2.1, hfacts.2.2.2.2.2.2.1]

/-- One scan step on two line lists whose current lines agree on every
feature the scanner inspects, with matching previous-line flags and matching
continuations, produces the same result. -/
theorem scanStep_eq (all2 all1 : List String) (i : Nat) (cc : Option String)
    (acc : List (String × FnEntry)) (l2 l : String) (t2 t1 : List String)
    (hfeat : l2 = l ∨
      (strStarts l2 "class " = false ∧ strStarts l "class " = false ∧
       isDefLine l2 = true ∧ isDefLine l = true ∧
       indentOf l2 = indentOf l ∧ defNameOf l2 = defNameOf l))
    (hflag : strStarts (pyLstrip (prevLine all2 i)) "@property" =
      strStarts (pyLstrip (prevLine all1 i)) "@property")
    (hrec : ∀ (cc' : Option String) (acc' : List (String × FnEntry)),
      scanAux all2 (i + 1) t2 cc' acc' = scanAux all1 (i + 1) t1 cc' acc') :
    scanAux all2 i (l2 :: t2) cc acc = scanAux all1 i (l :: t1) cc acc := by
  rcases hfeat with heq | ⟨h1, h2, h3, h4, h5, h6⟩
  · subst heq
    simp only [scanAux]
    by_cases hd : isDefLine l2 = true
    · simp only [if_pos hd]
      by_cases hu : strStarts (defNameOf l2) "_" = true
      · simp only [if_pos hu]; exact hrec _ _
      · simp only [if_neg hu]
        rw [hflag]
        by_cases hpp : strStarts (pyLstrip (prevLine all1 i)) "@property" = true
        · simp only [if_pos hpp]; exact hrec _ _
        · simp only [if_neg hpp]
          cases hm : (if indentOf l2 ≠ 0 then
              (if strStarts l2 "class " then some (classNameOf l2) else cc).map
                (fun c => c ++ "." ++ defNameOf l2)
            else some (defNameOf l2)) with
          | none => simp only [hm]
          | some f => simp only [hm]; exact hrec _ _
    · simp only [if_neg hd]; exact hrec _ _
  · simp only [scanAux]
    rw [hflag, h5, h6]
    rw [h1, h2, h3, h4]
    simp only [if_pos (show (true : Bool) = true from rfl),
      if_neg (show ¬((false : Bool) = true) from by decide)]
    by_cases hu : strStarts (defNameOf l) "_" = true
    · simp only [if_pos hu]; exact hrec _ _
    · simp only [if_neg hu]
      by_cases hpp : strStarts (pyLstrip (prevLine all1 i)) "@property" = true
      · simp only [if_pos hpp]; exact hrec _ _
      · simp only [if_neg hpp]
        cases hm : (if indentOf l ≠ 0 then cc.map (fun c => c ++ "." ++ defNameOf l)
          else some (defNameOf l)) with
        | none => simp only [hm]; simp
        | some f => simp only [hm]; exact hrec _ _

/-- A fatal patch outcome does not depend on the line being patched. -/
theorem entryPatch_error_indep (ip : IpCatalog) (f l l' e : String)
    (h : entryPatch ip f l = Except.error e) : entryPatch ip f l' = Except.error e := by
  revert h
  unfold entryPatch
  cases entrySigArgs ip f with
  | error e' => intro h; exact h
  | ok o =>
    cases o with
    | none => intro h; exact absurd h (by simp)
    | some trip =>
      obtain ⟨a, b, c⟩ := trip
      intro h
      exact absurd h (by simp)

/-- A successful injection loop run means no scanned identifier has a fatal
patch outcome, on any line. -/
theorem injectLoop_no_error (ip : IpCatalog) (isBase : Bool) :
    ∀ (fns : List (String × FnEntry)) (st out : List String × Nat),
      fns.reverse.foldlM (injectOne ip isBase) st = Except.ok out →
      ∀ q ∈ fns, ∀ (l e : String), entryPatch ip q.1 l ≠ Except.error e := by
  intro fns
  induction fns using List.reverseRecOn with
  | nil => intro st out _ q hq; exact absurd hq (List.not_mem_nil q)
  | append_singleton fns y ih =>
    intro st out hrun q hq l e hbad
    rw [List.reverse_append, List.reverse_singleton, List.singleton_append,
      List.foldlM_cons] at hrun
    cases hstep : injectOne ip isBase st y with
    | error e' =>
      rw [hstep] at hrun
      exact absurd hrun (by simp [Bind.bind, Except.bind])
    | ok st1 =>
      rw [hstep] at hrun
      simp only [Bind.bind, Except.bind] at hrun
      rcases List.mem_append.mp hq with hmem | hmem
      · exact ih st1 out hrun q hmem l e hbad
      · have hqy : q = y := List.mem_singleton.mp hmem
        subst hqy
        unfold injectOne at hstep
        rw [entryPatch_error_indep ip q.1 l ((st.1.get? q.2.idx).getD "") e hbad] at hstep
        exact absurd hstep (by simp)

/-- The injection loop succeeds whenever no scanned identifier has a fatal
patch outcome. -/
theorem injectLoop_total (ip : IpCatalog) (isBase : Bool) :
    ∀ (fns : List (String × FnEntry)) (st : List String × Nat),
      (∀ q ∈ fns, ∀ (l e : String), entryPatch ip q.1 l ≠ Except.error e) →
      ∃ out, fns.reverse.foldlM (injectOne ip isBase) st = Except.ok out := by
  intro fns
  induction fns using List.reverseRecOn with
  | nil => intro st _; exact ⟨st, rfl⟩
  | append_singleton fns y ih =>
    intro st hok
    rw [List.reverse_append, List.reverse_singleton, List.singleton_append,
      List.foldlM_cons]
    have hstep : ∃ st1, injectOne ip isBase st y = Except.ok st1 := by
      unfold injectOne
      cases hep : entryPatch ip y.1 ((st.1.get? y.2.idx).getD "") with
      | error e =>
        exact absurd hep (hok y (List.mem_append_right _ (List.mem_singleton_self y)) _ e)
      | ok o =>
        cases o with
        | none => exact ⟨st, rfl⟩
        | some trip =>
          obtain ⟨sig, se, ln⟩ := trip
          refine ⟨_, rfl⟩
    obtain ⟨st1, hst1⟩ := hstep
    rw [hst1]
    obtain ⟨out, hout⟩ := ih st1
      (fun q hq => hok q (List.mem_append_left _ hq))
    exact ⟨out, by simpa [Except.bind] using hout⟩

/-- Previous-line `@property` flags agree between the original lines and the
rewritten lines. -/
theorem prev_flag_eq2 (ip : IpCatalog) (fns : List (String × FnEntry)) (ls1 : List String)
    (Hdef : ∀ (k : Nat) (q : String × FnEntry), entryAt fns k = some q →
      isDefLine ((ls1.get? k).getD "") = true) (i : Nat) :
    strStarts (pyLstrip (prevLine (rewriteFrom ip fns 0 ls1) i)) "@property" =
      strStarts (pyLstrip (prevLine ls1 i)) "@property" := by
  have hflagAt : ∀ (j : Nat) (hj : j < ls1.length),
      strStarts (pyLstrip (rewriteAt ip fns j (ls1.get ⟨j, hj⟩))) "@property" =
        strStarts (pyLstrip (ls1.get ⟨j, hj⟩)) "@property" := by
    intro j hj
    exact rewriteAt_flag ip fns j _
      (fun q hq => by
        have := Hdef j q hq
        rwa [List.get?_eq_get hj, Option.getD_some] at this)
  unfold prevLine
  by_cases hi : i = 0
  · rw [if_pos hi, if_pos hi]
    cases hls : ls1 with
    | nil => rfl
    | cons a t =>
      have hne : ls1 ≠ [] := by rw [hls]; simp
      have hlen : 0 < ls1.length := by rw [hls]; simp
      have hRne : rewriteFrom ip fns 0 ls1 ≠ [] := by
        intro hc
        have := rewriteFrom_length ip fns ls1 0
        rw [hc] at this
        simp at this
        omega
      have hR : pyLastD (rewriteFrom ip fns 0 ls1) "" =
          rewriteAt ip fns (ls1.length - 1) (ls1.get ⟨ls1.length - 1, by omega⟩) := by
        unfold pyLastD
        rw [List.getLastD_eq_getLast?, List.getLast?_eq_get? ]
        rw [rewriteFrom_length ip fns ls1 0]
        rw [rewriteFrom_get ip fns ls1 0 (ls1.length - 1)]
        rw [List.get?_eq_get (by omega : ls1.length - 1 < ls1.length)]
        simp
      have hL : pyLastD ls1 "" = ls1.get ⟨ls1.length - 1, by omega⟩ := by
        unfold pyLastD
        rw [List.getLastD_eq_getLast?, List.getLast?_eq_get?]
        rw [List.get?_eq_get (by omega : ls1.length - 1 < ls1.length)]
        simp
      rw [← hls, hR, hL]
      exact hflagAt (ls1.length - 1) (by omega)
  · rw [if_neg hi, if_neg hi]
    by_cases hj : i - 1 < ls1.length
    · have hget : ls1.get? (i - 1) = some (ls1.get ⟨i - 1, hj⟩) := List.get?_eq_get _
      have hA : (rewriteFrom ip fns 0 ls1).get? (i - 1) =
          some (rewriteAt ip fns (i - 1) (ls1.get ⟨i - 1, hj⟩)) := by
        rw [rewriteFrom_get, hget]
        simp
      rw [hA, hget]
      simp only [Option.getD_some]
      exact hflagAt (i - 1) hj
    · have hA : (rewriteFrom ip fns 0 ls1).get? (i - 1) = none := by
        rw [List.get?_eq_none, rewriteFrom_length]
        omega
      have hB : ls1.get? (i - 1) = none := by
        rw [List.get?_eq_none]
        omega
      rw [hA, hB]

/-- The scan of the rewritten lines agrees with the scan of the original
lines, from any position on. -/
theorem scanAux_rewrite_eq2 (ip : IpCatalog) (fns : List (String × FnEntry)) (ls1 : List String)
    (Hdef : ∀ (k : Nat) (q : String × FnEntry), entryAt fns k = some q →
      isDefLine ((ls1.get? k).getD "") = true) :
    ∀ (rest : List String) (i : Nat) (cc : Option String) (acc : List (String × FnEntry)),
      rest = ls1.drop i →
      scanAux (rewriteFrom ip fns 0 ls1) i (rewriteFrom ip fns i rest) cc acc
        = scanAux ls1 i rest cc acc := by
  intro rest
  induction rest with
  | nil => intro i cc acc _; rfl
  | cons l rest ih =>
    intro i cc acc hdrop
    have hget : ls1.get? i = some l := by
      have h0 : (ls1.drop i).get? 0 = some l := by rw [← hdrop]; rfl
      rw [List.get?_drop] at h0
      simpa using h0
    have hrest : rest = ls1.drop (i + 1) := by
      have : (ls1.drop i).tail = ls1.drop (i + 1) := by rw [List.tail_drop]
      rw [← hdrop] at this
      simpa using this
    show scanAux (rewriteFrom ip fns 0 ls1) i
        (rewriteAt ip fns i l :: rewriteFrom ip fns (i + 1) rest) cc acc
      = scanAux ls1 i (l :: rest) cc acc
    refine scanStep_eq _ _ i cc acc _ l _ rest ?_ (prev_flag_eq2 ip fns ls1 Hdef i)
      (fun cc' acc' => ih (i + 1) cc' acc' hrest)
    unfold rewriteAt
    cases hat : entryAt fns i with
    | none => left; rfl
    | some q =>
      obtain ⟨fid, e⟩ := q
      dsimp only
      cases hep : entryPatch ip fid l with
      | error err => left; rfl
      | ok o =>
        cases o with
        | none => left; rfl
        | some trip =>
          obtain ⟨sig, se, ln⟩ := trip
          dsimp only
          right
          have hdl : isDefLine l = true := by
            have := Hdef i (fid, e) hat
            rwa [hget, Option.getD_some] at this
          obtain ⟨X, hX⟩ := entryPatch_shape ip fid l sig se ln hep
          have hf := sig_facts l X hdl
          rw [hX]
          exact ⟨hf.2.2.2.1, hf.2.2.2.2.1, hf.1, hdl, hf.2.1, hf.2.2.1⟩

/-- The scan of the in-place rewritten prepared lines equals the scan of the
original prepared lines. -/
theorem scanFns_rewrite_eq2 (ip : IpCatalog) (fns : List (String × FnEntry)) (ls1 : List String)
    (Hdef : ∀ (k : Nat) (q : String × FnEntry), entryAt fns k = some q →
      isDefLine ((ls1.get? k).getD "") = true) :
    scanFns (rewriteFrom ip fns 0 ls1) = scanFns ls1 := by
  unfold scanFns
  have h := scanAux_rewrite_eq2 ip fns ls1 Hdef ls1 0 none [] (by simp)
  rwa [show rewriteFrom ip fns 0 ls1 = rewriteFrom ip fns 0 ls1 from rfl] at h

/-- C8: the per-file patch is idempotent.  A second run on the file written by
a first successful run — whose reformatting passes restore the injected line
list (the final pass normalizing the trailing newline that the line split
drops) — scans the same functions (the marker stripping removes exactly the
injected comments), rewrites every signature to itself, injects byte-identical
comments, and returns the same written-back text and the same report. -/
theorem claim_C8 (fmtS fmtF : String → String) (ip : IpCatalog) (isBase : Bool)
    (src : String) (fns : List (String × FnEntry)) (out1 : List String) (c1 : Nat)
    (hscan : scanFns (prepLines (fmtS src)) = Except.ok fns)
    (hpair : List.Pairwise (fun a b => a.2.idx < b.2.idx) fns)
    (hinj : injectAll ip isBase (prepLines (fmtS src)) fns = Except.ok (out1, c1))
    (hsplit : pySplitlines (fmtS (fmtF (joinLines out1))) ++ [""] = out1) :
    patchFile fmtS fmtF ip isBase src =
      Except.ok (fmtF (joinLines out1),
        ⟨c1, notImplementedLines ip fns, unknownFunctionLines ip fns⟩) ∧
    patchFile fmtS fmtF ip isBase (fmtF (joinLines out1)) =
      Except.ok (fmtF (joinLines out1),
        ⟨c1, notImplementedLines ip fns, unknownFunctionLines ip fns⟩) := by
  have hmem := scanFns_mem_facts (prepLines (fmtS src)) fns hscan
  have hlen : ∀ q ∈ fns, q.2.idx < (prepLines (fmtS src)).length := fun q hq => (hmem q hq).1
  have hdefk : ∀ (k : Nat) (q : String × FnEntry), entryAt fns k = some q →
      isDefLine (((prepLines (fmtS src)).get? k).getD "") = true := by
    intro k q hk
    obtain ⟨hqmem, hidx⟩ := entryAt_mem fns k q hk
    have h2 := (hmem q hqmem).2
    rwa [hidx] at h2
  have hfold1 : fns.reverse.foldlM (injectOne ip isBase) (prepLines (fmtS src) ++ [], 0) =
      Except.ok (out1, c1) := by
    rw [List.append_nil]
    unfold injectAll at hinj
    exact hinj
  obtain ⟨hout1, hc1⟩ :=
    injectLoop_char ip isBase fns (prepLines (fmtS src)) [] 0 out1 c1 hpair hlen hfold1
  rw [List.append_nil] at hout1
  rw [Nat.zero_add] at hc1
  have hrun1 : patchFile fmtS fmtF ip isBase src =
      Except.ok (fmtF (joinLines out1),
        ⟨c1, notImplementedLines ip fns, unknownFunctionLines ip fns⟩) := by
    unfold patchFile patchLinesRun
    rw [hscan]
    dsimp only
    rw [hinj]
  have hls2 : prepLines (fmtS (fmtF (joinLines out1))) =
      rewriteFrom ip fns 0 (prepLines (fmtS src)) := by
    have hstrip := stripMap_expand ip isBase fns (prepLines (fmtS src)) 0
      (prepLines_marker_free (fmtS src)) (prepLines_rstripped (fmtS src))
      (fun j q hq => hdefk j q (by simpa using hq))
    rw [← hout1] at hstrip
    rw [← hsplit] at hstrip
    rw [List.filter_append, List.map_append] at hstrip
    rw [show (([""].filter (fun x => !isMarkerLine x)).map pyRstrip : List String) = [""]
      from by decide] at hstrip
    unfold prepLines
    exact hstrip
  have herr := injectLoop_no_error ip isBase fns (prepLines (fmtS src), 0) (out1, c1) (by
    unfold injectAll at hinj
    exact hinj)
  obtain ⟨out2st, hfold2⟩ :=
    injectLoop_total ip isBase fns (rewriteFrom ip fns 0 (prepLines (fmtS src)), 0) herr
  obtain ⟨out2, c2⟩ := out2st
  have hlen2 : ∀ q ∈ fns, q.2.idx < (rewriteFrom ip fns 0 (prepLines (fmtS src))).length := by
    intro q hq
    rw [rewriteFrom_length]
    exact hlen q hq
  obtain ⟨hout2, hc2⟩ :=
    injectLoop_char ip isBase fns (rewriteFrom ip fns 0 (prepLines (fmtS src))) [] 0 out2 c2
      hpair hlen2 (by rw [List.append_nil]; exact hfold2)
  rw [List.append_nil] at hout2
  rw [Nat.zero_add] at hc2
  have hout2eq : out2 = out1 := by
    rw [hout2, expandFrom_rewriteFrom, ← hout1]
  have hc2eq : c2 = c1 := by
    rw [hc2, hc1]
    have h := matchedCount_rewrite ip fns hpair (prepLines (fmtS src)) [] hlen
    rw [List.append_nil] at h
    exact h
  refine ⟨hrun1, ?_⟩
  unfold patchFile patchLinesRun
  rw [hls2, scanFns_rewrite_eq2 ip fns (prepLines (fmtS src)) hdefk, hscan]
  dsimp only
  unfold injectAll
  rw [hfold2]
  dsimp only
  rw [hout2eq, hc2eq]

/-- Witness for C8: a hand-written `GPUDevice.createBuffer` is patched once,
and a second run over the written-back text reproduces the same text and the
same report. -/
theorem claim_C8_witness :
    (pySplitlines ((fun s => pyRstrip s ++ "\n")
        ((fun s : String => s) (joinLines
          ["class GPUDevice:",
           "    # wgpu.help('devicecreatebuffer', 'Size64', dev=True)",
           "    # IDL: createBuffer(GPUSize64 size)",
           "    def createBuffer(self, size):",
           "        pass",
           ""]))) ++ [""] =
      ["class GPUDevice:",
       "    # wgpu.help('devicecreatebuffer', 'Size64', dev=True)",
       "    # IDL: createBuffer(GPUSize64 size)",
       "    def createBuffer(self, size):",
       "        pass",
       ""]) ∧
    patchFile (fun s => pyRstrip s ++ "\n") (fun s : String => s)
        ⟨[("devicecreatebuffer", "createBuffer(GPUSize64 size)")], []⟩ true
        ((fun s : String => s) (joinLines
          ["class GPUDevice:",
           "    # wgpu.help('devicecreatebuffer', 'Size64', dev=True)",
           "    # IDL: createBuffer(GPUSize64 size)",
           "    def createBuffer(self, size):",
           "        pass",
           ""])) =
      Except.ok ((fun s : String => s) (joinLines
          ["class GPUDevice:",
           "    # wgpu.help('devicecreatebuffer', 'Size64', dev=True)",
           "    # IDL: createBuffer(GPUSize64 size)",
           "    def createBuffer(self, size):",
           "        pass",
           ""]),
        ⟨1,
         notImplementedLines ⟨[("devicecreatebuffer", "createBuffer(GPUSize64 size)")], []⟩
           [("devicecreatebuffer", ⟨"GPUDevice.createBuffer", 1, 4⟩)],
         unknownFunctionLines ⟨[("devicecreatebuffer", "createBuffer(GPUSize64 size)")], []⟩
           [("devicecreatebuffer", ⟨"GPUDevice.createBuffer", 1, 4⟩)]⟩) :=
  ⟨by decide,
   (claim_C8 (fun s => pyRstrip s ++ "\n") (fun s : String => s)
      ⟨[("devicecreatebuffer", "createBuffer(GPUSize64 size)")], []⟩ true
      "class GPUDevice:\n    def createBuffer(self, a):\n        pass"
      [("devicecreatebuffer", ⟨"GPUDevice.createBuffer", 1, 4⟩)]
      ["class GPUDevice:",
       "    # wgpu.help('devicecreatebuffer', 'Size64', dev=True)",
       "    # IDL: createBuffer(GPUSize64 size)",
       "    def createBuffer(self, size):",
       "        pass",
       ""] 1
      (by decide) (by decide) (by decide) (by decide)).2⟩

end Codegen
